import Mathlib

/-!
WebSpider: rate controller, URL filter and discovery engine.

A shallow embedding of `src/main.go`.

Conventions of the embedding.

* An instant (`time.Time`) is an integer count of nanoseconds since the zero
  `Time`; `IsZero` is equality with `0`; `Time.Add` and `Time.After` are
  integer addition and `>`.  A `time.Duration` is an `int64` count of
  nanoseconds.  In the window check of `handleSpecialRateLimit` the arithmetic
  on durations is Go's: negation and subtraction wrap (`wrap64`) and `Time.Sub`
  saturates (`sat64`).  In the block check `lastBlockTime` is a past instant,
  the difference `now - lastBlockTime` is subtracted from `BlockDuration` only
  when it is below it, and the arithmetic is written exactly.
* `regexp`, `net/url`, `net/http`, `goquery` and `rate.Limiter` are libraries;
  what they answer is a parameter of the definitions that call them.
* A runtime panic is the `Fault` value of an `Except`.
* The rate controller is followed one call at a time, on an explicit clock;
  what other goroutines do while `requestTimeMu` is released is a parameter.
* The discovery engine is followed as a pool of concurrent `discover` calls
  under an arbitrary schedule; to the engine a `makeRequest` call is only what
  it hands back.
* Verbose logging is left out.
-/

namespace WebSpider

/-! ## Configuration and spider state -/

/-- A compiled `*regexp.Regexp`, seen through `MatchString`. -/
structure Regexp where
  MatchString : String → Bool

/-- The fields of `Config` read by the rate controller and the discovery engine. -/
structure Config where
  BaseURL : String
  MaxDepth : Int
  SpecialRate : Bool
  MaxRequests : Int
  TimeWindow : Int
  BlockDuration : Int

/-- The fields of `Spider` guarded by `requestTimeMu`. -/
structure RateState where
  requestTimes : List Int
  lastBlockTime : Int
deriving DecidableEq, Repr

/-- The rate state built by `NewSpider`: no timestamps, zero `lastBlockTime`. -/
def RateState.new : RateState := { requestTimes := [], lastBlockTime := 0 }

/-- A runtime panic. -/
inductive Fault where
  | indexOutOfRange
deriving DecidableEq, Repr

/-- A non-nil Go `error` value, by origin. -/
inductive GoError where
  | ctxErr
  | limiterErr
  | newRequestErr
  | transportErr
  | urlParseErr
  | documentErr
deriving DecidableEq, Repr

/-! ## Rate controller -/

/-- What the surroundings contribute to one `handleSpecialRateLimit` call:
how long each sleep overshoots, and what other goroutines do to the rate state
while `requestTimeMu` is released. -/
structure Env where
  blockLag : Nat
  duringBlock : RateState → RateState
  waitLag : Nat
  duringWait : RateState → RateState

/-- The surroundings of a single caller: exact sleeps, nobody else touches the state. -/
def Env.alone : Env :=
  { blockLag := 0, duringBlock := id, waitLag := 0, duringWait := id }

/-- What one `handleSpecialRateLimit` call did: the error returned (`none`
for `nil`), the rate state and the instant at return, the argument of the
`time.Sleep` of line 159 when it ran, and the argument of the `time.After` of
line 193 when the `select` ran. -/
structure Pacing where
  err : Option GoError
  st : RateState
  ret : Int
  blockWait : Option Int
  windowWait : Option Int
deriving DecidableEq, Repr

/-- The value Go's `int64` arithmetic gives where the exact result is `x`:
`x` reduced into the range from `-2^63` to `2^63 - 1`. -/
def wrap64 (x : Int) : Int :=
  (x + 9223372036854775808) % 18446744073709551616 - 9223372036854775808

/-- The `Duration` `Time.Sub` gives where the exact difference is `x`: `x`
held between the least and the greatest `Duration`. -/
def sat64 (x : Int) : Int :=
  max (-9223372036854775808) (min x 9223372036854775807)

/-- Line 166: `cutoff := now.Add(-s.config.TimeWindow)`. -/
def cutoff (cfg : Config) (now : Int) : Int := now + wrap64 (-cfg.TimeWindow)

/-- Line 179: `waitTime := s.config.TimeWindow - now.Sub(oldestRequest)`. -/
def waitTime (cfg : Config) (now oldestRequest : Int) : Int :=
  wrap64 (cfg.TimeWindow - sat64 (now - oldestRequest))

/-- The loop of lines 167-173: keep the timestamps `t` with `t.After(cutoff)`. -/
def validTimes (cutoff : Int) (requestTimes : List Int) : List Int :=
  requestTimes.filter (fun t => decide (t > cutoff))

/-- Lines 150-163: the state, the instant and the sleep after the block check. -/
def blockPhase (cfg : Config) (env : Env) (s : RateState) (now : Int) :
    RateState × Int × Option Int :=
  if s.lastBlockTime ≠ 0 then
    let timeSinceBlock := now - s.lastBlockTime
    if timeSinceBlock < cfg.BlockDuration then
      let remainingWait := cfg.BlockDuration - timeSinceBlock
      (env.duringBlock s, now + remainingWait + env.blockLag, some remainingWait)
    else (s, now, none)
  else (s, now, none)

/-- The method `Spider.handleSpecialRateLimit`, called at instant `now` with a
context cancelled at instant `ctx` (`none`: never cancelled).  In the `select`
of lines 189-195 the cancellation wins when it comes before the timer fires. -/
def handleSpecialRateLimit (cfg : Config) (ctx : Option Int) (env : Env)
    (s : RateState) (now : Int) : Except Fault Pacing :=
  let (s1, now1, blockWait) := blockPhase cfg env s now
  let s2 : RateState :=
    { s1 with requestTimes := validTimes (cutoff cfg now1) s1.requestTimes }
  if (s2.requestTimes.length : Int) ≥ cfg.MaxRequests then
    match s2.requestTimes with
    | [] => .error .indexOutOfRange
    | oldestRequest :: _ =>
      if waitTime cfg now1 oldestRequest > 0 then
        match ctx with
        | some c =>
          if c < now1 + waitTime cfg now1 oldestRequest then
            .ok { err := some .ctxErr, st := env.duringWait s2,
                  ret := max c now1 + env.waitLag,
                  blockWait := blockWait,
                  windowWait := some (waitTime cfg now1 oldestRequest) }
          else
            .ok { err := none, st := env.duringWait s2,
                  ret := now1 + waitTime cfg now1 oldestRequest + env.waitLag,
                  blockWait := blockWait,
                  windowWait := some (waitTime cfg now1 oldestRequest) }
        | none =>
          .ok { err := none, st := env.duringWait s2,
                ret := now1 + waitTime cfg now1 oldestRequest + env.waitLag,
                blockWait := blockWait,
                windowWait := some (waitTime cfg now1 oldestRequest) }
      else
        .ok { err := none, st := s2, ret := now1,
              blockWait := blockWait, windowWait := none }
  else
    .ok { err := none, st := s2, ret := now1,
          blockWait := blockWait, windowWait := none }

/-- The method `Spider.trackRequest`, with `time.Now()` equal to `now`. -/
def trackRequest (s : RateState) (now : Int) : RateState :=
  { s with requestTimes := s.requestTimes ++ [now] }

/-- The method `Spider.handleBlock`, with `time.Now()` equal to `now`. -/
def handleBlock (_s : RateState) (now : Int) : RateState :=
  { lastBlockTime := now, requestTimes := [] }

/-- The status test of line 131. -/
def isBlockStatus (status : Int) : Bool :=
  status == 429 || status == 503 || status == 502

/-- What the surroundings contribute to one `makeRequest` call: the pacing
surroundings, how long `rate.Limiter.Wait` blocks and whether it fails,
whether `http.NewRequestWithContext` fails, the status of the response of
`client.Do` (`none`: `resp == nil`), and the time taken by `client.Do`, by
reaching `trackRequest` and by reaching `handleBlock`, and the overshoot of
the final sleep. -/
structure Exchange where
  env : Env
  limiterWait : Nat
  limiterFails : Bool
  newRequestFails : Bool
  status : Option Int
  latency : Nat
  trackLag : Nat
  handleLag : Nat
  sleepLag : Nat

/-- What one `makeRequest` call did: the pacing record (special mode, when
the pacing call returned), the status handed back, the returned error, the
instant `handleBlock` ran, the rate state and the instant at return. -/
structure Sent where
  pacing : Option Pacing
  status : Option Int
  err : Option GoError
  blockedAt : Option Int
  st : RateState
  ret : Int
deriving DecidableEq, Repr

/-- The method `Spider.makeRequest`, called at instant `now`, as far as the
rate state and the clock are concerned. -/
def makeRequest (cfg : Config) (ctx : Option Int) (x : Exchange)
    (s : RateState) (now : Int) : Except Fault Sent :=
  if cfg.SpecialRate then
    match handleSpecialRateLimit cfg ctx x.env s now with
    | .error f => .error f
    | .ok a =>
      match a.err with
      | some e =>
        .ok { pacing := some a, status := none, err := some e, blockedAt := none,
              st := a.st, ret := a.ret }
      | none =>
        if x.newRequestFails then
          .ok { pacing := some a, status := none, err := some .newRequestErr,
                blockedAt := none, st := a.st, ret := a.ret }
        else
          let respErr : Option GoError :=
            match x.status with
            | some _ => none
            | none => some .transportErr
          let tracked := a.ret + x.latency + x.trackLag
          let s1 := trackRequest a.st tracked
          match x.status with
          | some code =>
            if isBlockStatus code then
              let blocked := tracked + x.handleLag
              let s2 := handleBlock s1 blocked
              .ok { pacing := some a, status := x.status, err := respErr,
                    blockedAt := some blocked, st := s2,
                    ret := blocked + max cfg.BlockDuration 0 + x.sleepLag }
            else
              .ok { pacing := some a, status := x.status, err := respErr,
                    blockedAt := none, st := s1, ret := tracked }
          | none =>
            .ok { pacing := some a, status := x.status, err := respErr,
                  blockedAt := none, st := s1, ret := tracked }
  else
    if x.limiterFails then
      .ok { pacing := none, status := none, err := some .limiterErr,
            blockedAt := none, st := s, ret := now + x.limiterWait }
    else if x.newRequestFails then
      .ok { pacing := none, status := none, err := some .newRequestErr,
            blockedAt := none, st := s, ret := now + x.limiterWait }
    else
      .ok { pacing := none, status := x.status,
            err := (match x.status with
                    | some _ => none
                    | none => some .transportErr),
            blockedAt := none, st := s, ret := now + x.limiterWait + x.latency }

/-- A single caller issuing `makeRequest` calls back to back: each call starts
at the instant the previous one returned.  The result lists what each call
did, and ends with the rate state and the instant after the last call. -/
def session (cfg : Config) (ctx : Option Int) :
    List Exchange → RateState → Int → Except Fault (List Sent × RateState × Int)
  | [], s, now => .ok ([], s, now)
  | x :: xs, s, now =>
    match makeRequest cfg ctx x s now with
    | .error f => .error f
    | .ok r =>
      match session cfg ctx xs r.st r.ret with
      | .error f => .error f
      | .ok (rs, s', now') => .ok (r :: rs, s', now')

/-! ## URL filter -/

/-- The method `Spider.shouldAcceptURL`; a `nil` pattern is `none`. -/
def shouldAcceptURL (acceptRegex rejectRegex : Option Regexp) (rawURL : String) : Bool :=
  if (match rejectRegex with
      | some re => re.MatchString rawURL
      | none => false) then
    false
  else if (match acceptRegex with
           | some re => !re.MatchString rawURL
           | none => false) then
    false
  else
    true

/-! ## Discovery engine

The goroutines of a run are a pool of tasks.  A task is a `discover` call
between two of its accesses to shared state (the visited map, the discovered
slice, the rate controller); a step runs one task up to its next access, and a
schedule, the list of the pool indices stepped, fixes the interleaving.  The
semaphore and the `WaitGroup` only restrict which interleavings occur; they
are not modelled, so the schedules of the model include those of the program.
-/

/-- The call `strings.HasSuffix(s, suffix)`. -/
def hasSuffix (s suffix : String) : Bool := suffix.data.isSuffixOf s.data

/-- Whether the characters `sub` open the characters `s`. -/
def opensWith : List Char → List Char → Bool
  | _, [] => true
  | [], _ :: _ => false
  | c :: cs, d :: ds => c == d && opensWith cs ds

/-- Whether the characters `sub` occur in the characters `s`. -/
def occursIn (sub : List Char) : List Char → Bool
  | [] => sub.isEmpty
  | c :: cs => opensWith (c :: cs) sub || occursIn sub cs

/-- The call `strings.Contains(s, sub)`. -/
def containsStr (s sub : String) : Bool := occursIn sub.data s.data

/-- The method `Spider.isFile`. -/
def isFile (rawURL : String) : Bool := !hasSuffix rawURL "/"

/-- A parsed `*url.URL`, as far as `discover` reads it: its `Host` and its
`String()` rendering. -/
structure URL where
  Host : String
  text : String
deriving DecidableEq, Repr

/-- The two request methods `discover` uses. -/
inductive Method where
  | HEAD
  | GET
deriving DecidableEq, Repr

/-- What a `makeRequest` call hands back to `discover`: an error, or a
response with its status and, for its body, what
`goquery.NewDocumentFromReader` followed by `Find("a[href]")` gives: `none`
when the document cannot be built, else the `href` values in document order. -/
inductive Reply where
  | failed (err : GoError)
  | response (status : Int) (doc : Option (List String))
deriving DecidableEq, Repr

/-- The libraries and the server of one run: `url.Parse`, the reference
resolution `(*URL).Parse`, and what `makeRequest` hands back for a method and
a URL.  A run requests a URL at most once (`run_once`), so one answer per
method and URL describes every run. -/
structure Web where
  parse : String → Option URL
  resolve : URL → String → Option URL
  answer : Method → String → Reply

/-- The read-only part of a `Spider`. -/
structure Engine where
  config : Config
  acceptRegex : Option Regexp
  rejectRegex : Option Regexp

/-- The part of a `Spider` guarded by `mu`, with two records of what the run
did: the `makeRequest` calls made, in order, and the error returned by the
call `discover(ctx, BaseURL, 0)`, once it has returned one. -/
structure Spider where
  visited : List String
  discovered : List String
  requests : List (Method × String)
  rootErr : Option GoError
deriving DecidableEq, Repr

/-- A `discover` call in progress.  `call`: invoked, before the depth check
and the test-and-set of lines 236-246.  `fetch`: past `url.Parse`, before
`makeRequest`.  `record`: before the append of lines 266-268.  `scan`: inside
the `Each` loop of lines 299-343, with the anchors still to be looked at.
`root` marks the call made by `DiscoverStructure`. -/
inductive Task where
  | call (url : String) (depth : Nat) (root : Bool)
  | fetch (url : String) (parsedURL : URL) (depth : Nat) (root : Bool)
  | record (url : String)
  | scan (parsedURL : URL) (depth : Nat) (hrefs : List String)
deriving DecidableEq, Repr

/-- The state of a run: the shared state and the pool of tasks. -/
structure Crawl where
  spider : Spider
  tasks : List Task
deriving DecidableEq, Repr

/-- Records the error a finished call returns: only the root call's error
reaches `DiscoverStructure`; a goroutine's error is logged and dropped. -/
def returnErr (s : Spider) (root : Bool) (err : GoError) : Spider :=
  if root then { s with rootErr := some err } else s

/-- The method `Spider.discover`, one task advanced to its next access to
shared state: the shared state after the step and the tasks that replace the
one stepped (its continuation and the goroutine it spawned, if any). -/
def discover (e : Engine) (w : Web) (s : Spider) : Task → Spider × List Task
  | .call targetURL depth root =>
    if (depth : Int) > e.config.MaxDepth then (s, [])
    else if targetURL ∈ s.visited then (s, [])
    else
      let s1 := { s with visited := s.visited ++ [targetURL] }
      match w.parse targetURL with
      | none => (returnErr s1 root .urlParseErr, [])
      | some parsedURL => (s1, [.fetch targetURL parsedURL depth root])
  | .fetch targetURL parsedURL depth root =>
    if isFile targetURL then
      let s1 := { s with requests := s.requests ++ [(.HEAD, targetURL)] }
      match w.answer .HEAD targetURL with
      | .failed _ => (s1, [])
      | .response status _ =>
        if status = 200 ∧ shouldAcceptURL e.acceptRegex e.rejectRegex targetURL = true then
          (s1, [.record targetURL])
        else (s1, [])
    else
      let s1 := { s with requests := s.requests ++ [(.GET, targetURL)] }
      match w.answer .GET targetURL with
      | .failed _ => (s1, [])
      | .response status doc =>
        if status ≠ 200 then (s1, [])
        else
          match doc with
          | none => (returnErr s1 root .documentErr, [])
          | some hrefs => (s1, [.scan parsedURL depth hrefs])
  | .record targetURL =>
    ({ s with discovered := s.discovered ++ [targetURL] }, [])
  | .scan _ _ [] => (s, [])
  | .scan parsedURL depth (href :: rest) =>
    match w.resolve parsedURL href with
    | none => (s, [.scan parsedURL depth rest])
    | some linkURL =>
      if linkURL.Host ≠ parsedURL.Host then (s, [.scan parsedURL depth rest])
      else if containsStr href ".." then (s, [.scan parsedURL depth rest])
      else if linkURL.text ∈ s.visited then (s, [.scan parsedURL depth rest])
      else (s, [.scan parsedURL depth rest, .call linkURL.text (depth + 1) false])

/-- One step of a run: the task at index `i` of the pool advances; an index
outside the pool changes nothing. -/
def step (e : Engine) (w : Web) (c : Crawl) (i : Nat) : Crawl :=
  match c.tasks.drop i with
  | [] => c
  | t :: later =>
    { spider := (discover e w c.spider t).1,
      tasks := c.tasks.take i ++ (discover e w c.spider t).2 ++ later }

/-- A run along a schedule. -/
def run (e : Engine) (w : Web) (c : Crawl) (schedule : List Nat) : Crawl :=
  schedule.foldl (step e w) c

/-- The state `DiscoverStructure` starts from: the maps of `NewSpider` and the
call `discover(ctx, BaseURL, 0)`. -/
def Crawl.start (e : Engine) : Crawl :=
  { spider := { visited := [], discovered := [], requests := [], rootErr := none },
    tasks := [.call e.config.BaseURL 0 true] }

/-- The order of `sort.Strings` on the characters of two strings.  Go compares
bytes; on UTF-8 text the order by bytes is the order by code points. -/
def lexLE : List Char → List Char → Bool
  | [], _ => true
  | _ :: _, [] => false
  | a :: as, b :: bs =>
    decide (a.toNat < b.toNat) || (decide (a.toNat = b.toNat) && lexLE as bs)

/-- The order of `sort.Strings`. -/
def stringLE (a b : String) : Prop := lexLE a.data b.data = true

instance : DecidableRel stringLE :=
  fun a b => inferInstanceAs (Decidable (lexLE a.data b.data = true))

/-- The call `sort.Strings`, by its result. -/
def sortStrings (l : List String) : List String := List.insertionSort stringLE l

/-- What `DiscoverStructure` returns once every task of the run is done. -/
def Spider.result (s : Spider) : Except GoError (List String) :=
  match s.rootErr with
  | some err => .error err
  | none => .ok (sortStrings s.discovered)

/-- The method `Spider.DiscoverStructure` along a schedule: `none` while tasks
remain, else what is returned. -/
def DiscoverStructure (e : Engine) (w : Web) (schedule : List Nat) :
    Option (Except GoError (List String)) :=
  let c := run e w (Crawl.start e) schedule
  if c.tasks = [] then some c.spider.result else none

/-! ## Sample inputs -/

/-- A sample sliding-window configuration: 2 requests per 5 s, 10 s block. -/
def sampleConfig : Config :=
  { BaseURL := "https://x.test/files/", MaxDepth := 1, SpecialRate := true,
    MaxRequests := 2, TimeWindow := 5000000000, BlockDuration := 10000000000 }

/-- A sample exchange of a single caller answered with status `code`. -/
def sampleExchange (code : Int) : Exchange :=
  { env := Env.alone, limiterWait := 0, limiterFails := false, newRequestFails := false,
    status := some code, latency := 1000, trackLag := 0, handleLag := 0, sleepLag := 0 }

/-- A sample engine: the sample configuration, no patterns. -/
def sampleEngine : Engine :=
  { config := sampleConfig, acceptRegex := none, rejectRegex := none }

/-- A sample web whose seed directory is answered with status 200 and a body
from which no document can be built; no `makeRequest` call fails. -/
def brokenPageWeb : Web :=
  { parse := fun u => some { Host := "x.test", text := u },
    resolve := fun p h => some { Host := p.Host, text := p.text ++ h },
    answer := fun _ _ => .response 200 none }

/-- A sample web in which every `makeRequest` call returns the error of the
cancelled context. -/
def cancelledWeb : Web :=
  { parse := fun u => some { Host := "x.test", text := u },
    resolve := fun p h => some { Host := p.Host, text := p.text ++ h },
    answer := fun _ _ => .failed .ctxErr }

/-- The anchors of the sample seed page: a duplicate, a parent link, a
subdirectory, an external link and a missing file among them. -/
def sampleHrefs : List String :=
  ["b.txt", "a.txt", "b.txt", "../", "sub/", "http://other.test/x", "c.txt"]

/-- A sample web: the seed directory `https://x.test/files/` with the sample
anchors, a subdirectory with anchors of its own, and a file `c.txt` that
answers HEAD with 404. -/
def sampleWeb : Web :=
  { parse := fun u => some { Host := "x.test", text := u },
    resolve := fun p h =>
      if h = "http://other.test/x" then some { Host := "other.test", text := h }
      else some { Host := p.Host, text := p.text ++ h },
    answer := fun m u =>
      match m with
      | .GET =>
        if u = "https://x.test/files/" then .response 200 (some sampleHrefs)
        else if u = "https://x.test/files/sub/" then .response 200 (some ["d.txt", "a.txt"])
        else .response 404 none
      | .HEAD =>
        if u = "https://x.test/files/c.txt" then .response 404 none else .response 200 none }

/-- The sample engine with depth bound 0. -/
def seedOnlyEngine : Engine :=
  { config := { sampleConfig with MaxDepth := 0 }, acceptRegex := none, rejectRegex := none }

/-- A sample pattern: the URLs ending in `.txt`. -/
def txtPattern : Regexp := { MatchString := fun u => hasSuffix u ".txt" }

/-- A sample pattern: the URLs containing `private`. -/
def privatePattern : Regexp := { MatchString := fun u => containsStr u "private" }

/-- A sample shared state in which `https://x.test/files/a.txt` is not yet visited. -/
def sampleSpider : Spider :=
  { visited := ["https://x.test/files/"], discovered := [],
    requests := [(.GET, "https://x.test/files/")], rootErr := none }

/-! ## The list of the end-to-end scenario -/

/-- Whether the HEAD request for `u` is answered with status 200. -/
def headFound (w : Web) (u : String) : Bool :=
  match w.answer .HEAD u with
  | .response status _ => decide (status = 200)
  | .failed _ => false

/-- The list the end-to-end scenario of the specification describes, for a
seed page with the anchors `hrefs` fetched at the parsed seed `P`: the anchors
that resolve, to the seed's host, from an `href` without `..`, to a URL not
ending in `/` whose HEAD request is answered with status 200 and which
`shouldAcceptURL` accepts; rendered, without duplicates, sorted.  It follows
the words of the specification, not the code. -/
def depthOneFiles (e : Engine) (w : Web) (P : URL) (hrefs : List String) : List String :=
  sortStrings (List.dedup (hrefs.filterMap (fun h =>
    match w.resolve P h with
    | none => none
    | some l =>
      if l.Host = P.Host ∧ containsStr h ".." = false ∧ hasSuffix l.text "/" = false ∧
          headFound w l.text = true ∧
          shouldAcceptURL e.acceptRegex e.rejectRegex l.text = true
      then some l.text else none)))

/-- An anchor `h` of a page fetched at `P` that passes the link guard and
renders as `u`. -/
def GoodLink (w : Web) (P : URL) (h u : String) : Prop :=
  ∃ l, w.resolve P h = some l ∧ l.Host = P.Host ∧ containsStr h ".." = false ∧ l.text = u

/-- A URL the end-to-end scenario lists. -/
def Qualifies (e : Engine) (w : Web) (P : URL) (hrefs : List String) (u : String) : Prop :=
  (∃ h ∈ hrefs, GoodLink w P h u) ∧ isFile u = true ∧
  (∃ doc, w.answer .HEAD u = .response 200 doc) ∧
  shouldAcceptURL e.acceptRegex e.rejectRegex u = true

/-! ## Steps, measures and invariants of the proofs -/

/-- The steps of `discover`, case by case: `Move e w s t s' ts` when stepping
task `t` on shared state `s` leaves shared state `s'` and the tasks `ts`. -/
inductive Move (e : Engine) (w : Web) : Spider → Task → Spider → List Task → Prop where
  | callSkip (s : Spider) (u : String) (d : Nat) (r : Bool) :
      ((d : Int) > e.config.MaxDepth ∨ u ∈ s.visited) → Move e w s (.call u d r) s []
  | callParseFail (s : Spider) (u : String) (d : Nat) (r : Bool) :
      (d : Int) ≤ e.config.MaxDepth → u ∉ s.visited → w.parse u = none →
      Move e w s (.call u d r)
        (returnErr { s with visited := s.visited ++ [u] } r .urlParseErr) []
  | callVisit (s : Spider) (u : String) (d : Nat) (r : Bool) (p : URL) :
      (d : Int) ≤ e.config.MaxDepth → u ∉ s.visited → w.parse u = some p →
      Move e w s (.call u d r) { s with visited := s.visited ++ [u] } [.fetch u p d r]
  | headNo (s : Spider) (u : String) (p : URL) (d : Nat) (r : Bool) :
      isFile u = true →
      ¬ (∃ doc, w.answer .HEAD u = .response 200 doc ∧
          shouldAcceptURL e.acceptRegex e.rejectRegex u = true) →
      Move e w s (.fetch u p d r) { s with requests := s.requests ++ [(.HEAD, u)] } []
  | headYes (s : Spider) (u : String) (p : URL) (d : Nat) (r : Bool) (doc : Option (List String)) :
      isFile u = true → w.answer .HEAD u = .response 200 doc →
      shouldAcceptURL e.acceptRegex e.rejectRegex u = true →
      Move e w s (.fetch u p d r) { s with requests := s.requests ++ [(.HEAD, u)] } [.record u]
  | getNo (s : Spider) (u : String) (p : URL) (d : Nat) (r : Bool) :
      isFile u = false → (∀ doc, w.answer .GET u ≠ .response 200 doc) →
      Move e w s (.fetch u p d r) { s with requests := s.requests ++ [(.GET, u)] } []
  | getDocErr (s : Spider) (u : String) (p : URL) (d : Nat) (r : Bool) :
      isFile u = false → w.answer .GET u = .response 200 none →
      Move e w s (.fetch u p d r)
        (returnErr { s with requests := s.requests ++ [(.GET, u)] } r .documentErr) []
  | getPage (s : Spider) (u : String) (p : URL) (d : Nat) (r : Bool) (hrefs : List String) :
      isFile u = false → w.answer .GET u = .response 200 (some hrefs) →
      Move e w s (.fetch u p d r) { s with requests := s.requests ++ [(.GET, u)] }
        [.scan p d hrefs]
  | recordIt (s : Spider) (u : String) :
      Move e w s (.record u) { s with discovered := s.discovered ++ [u] } []
  | scanDone (s : Spider) (p : URL) (d : Nat) : Move e w s (.scan p d []) s []
  | scanSkip (s : Spider) (p : URL) (d : Nat) (h : String) (hs : List String) :
      ¬ (∃ l, w.resolve p h = some l ∧ l.Host = p.Host ∧ containsStr h ".." = false ∧
          l.text ∉ s.visited) →
      Move e w s (.scan p d (h :: hs)) s [.scan p d hs]
  | scanSpawn (s : Spider) (p : URL) (d : Nat) (h : String) (hs : List String) (l : URL) :
      w.resolve p h = some l → l.Host = p.Host → containsStr h ".." = false →
      l.text ∉ s.visited →
      Move e w s (.scan p d (h :: hs)) s [.scan p d hs, .call l.text (d + 1) false]

/-- A bound on the steps a `scan` task and the calls it spawns can take. -/
def scanCostWith (w : Web) (child : String → Nat) (p : URL) : List String → Nat
  | [] => 1
  | h :: hs =>
    1 + (match w.resolve p h with
         | some l => child l.text
         | none => 0) + scanCostWith w child p hs

/-- A bound on the steps a `fetch` task and what follows it can take. -/
def fetchCostWith (w : Web) (child : String → Nat) (u : String) (p : URL) : Nat :=
  1 + (if isFile u = true then 1
       else match w.answer .GET u with
         | .response status (some hrefs) =>
           if status = 200 then scanCostWith w child p hrefs else 0
         | _ => 0)

/-- A bound on the steps a `call` task with `n` levels left can take. -/
def callCost (w : Web) : Nat → String → Nat
  | 0, _ => 1
  | n + 1, u =>
    1 + (match w.parse u with
         | none => 0
         | some p => fetchCostWith w (fun v => callCost w n v) u p)

/-- A bound on the steps a task and what follows it can take. -/
def taskCost (e : Engine) (w : Web) : Task → Nat
  | .call u d _ => callCost w (e.config.MaxDepth + 1 - d).toNat u
  | .fetch u p d _ => fetchCostWith w (fun v => callCost w (e.config.MaxDepth - d).toNat v) u p
  | .record _ => 1
  | .scan p d hs => scanCostWith w (fun v => callCost w (e.config.MaxDepth - d).toNat v) p hs

/-- A bound on the steps left in a pool. -/
def poolCost (e : Engine) (w : Web) (ts : List Task) : Nat := (ts.map (taskCost e w)).sum

/-- Counts a task that is about to request `u`. -/
def fetching (u : String) : Task → Nat
  | .fetch v _ _ _ => if v = u then 1 else 0
  | _ => 0

/-- Counts a task that is about to append `u` to the discovered list. -/
def recording (u : String) : Task → Nat
  | .record v => if v = u then 1 else 0
  | _ => 0

/-- The number of `makeRequest` calls made for `u`. -/
def Spider.requested (s : Spider) (u : String) : Nat := (s.requests.map Prod.snd).count u

/-- The number of entries of the discovered list equal to `u`. -/
def Spider.listed (s : Spider) (u : String) : Nat := s.discovered.count u

/-- The at-most-once invariant for `u`, against the counts `b` and `b'` of the
state the run started from: until `u` is marked visited nothing is added for
`u`, and afterwards at most one request and at most one entry are. -/
def Once (u : String) (b b' : Nat) (s : Spider) (ts : List Task) : Prop :=
  ((ts.map (fetching u)).sum + s.requested u ≤ b + (if u ∈ s.visited then 1 else 0)) ∧
  ((ts.map (fetching u)).sum + (ts.map (recording u)).sum + s.listed u
    ≤ b' + (if u ∈ s.visited then 1 else 0))

/-- What a task may be in a run with `MaxDepth = 0`: the seed's own call, or a
call one level or more below it. -/
def seedTask (e : Engine) : Task → Prop
  | .call u d r => (r = true → u = e.config.BaseURL) ∧ (r = false → 1 ≤ d)
  | .fetch u _ _ _ => u = e.config.BaseURL
  | .record u => u = e.config.BaseURL
  | .scan _ _ _ => True

/-- The invariant of a run with `MaxDepth = 0`: only the seed is visited,
requested or listed. -/
def SeedOnly (e : Engine) (s : Spider) (ts : List Task) : Prop :=
  (∀ u ∈ s.visited, u = e.config.BaseURL) ∧
  (∀ q ∈ s.requests, q.2 = e.config.BaseURL) ∧
  (∀ u ∈ s.discovered, u = e.config.BaseURL) ∧
  ∀ t ∈ ts, seedTask e t

/-- A URL `u` is linked when a directory page that was fetched carries an
anchor whose `href` has no `..`, resolves to the page's own host, and renders
as `u`. -/
def Linked (w : Web) (s : Spider) (u : String) : Prop :=
  ∃ page p hrefs h l, (Method.GET, page) ∈ s.requests ∧ w.parse page = some p ∧
    w.answer .GET page = .response 200 (some hrefs) ∧ h ∈ hrefs ∧
    w.resolve p h = some l ∧ l.Host = p.Host ∧ containsStr h ".." = false ∧ l.text = u

/-- What the link guard keeps true of a task. -/
def guardedTask (e : Engine) (w : Web) (s : Spider) : Task → Prop
  | .call u _ r => (r = true → u = e.config.BaseURL) ∧ (r = false → Linked w s u)
  | .fetch u p _ _ => w.parse u = some p ∧ u ∈ s.visited
  | .record _ => True
  | .scan p _ hs =>
    ∃ page hrefs, (Method.GET, page) ∈ s.requests ∧ w.parse page = some p ∧
      w.answer .GET page = .response 200 (some hrefs) ∧ ∀ h ∈ hs, h ∈ hrefs

/-- The invariant of the link guard: whatever is visited or requested is the
seed or is linked. -/
def Guarded (e : Engine) (w : Web) (s : Spider) (ts : List Task) : Prop :=
  (∀ u ∈ s.visited, u = e.config.BaseURL ∨ Linked w s u) ∧
  (∀ q ∈ s.requests, q.2 ∈ s.visited) ∧
  ∀ t ∈ ts, guardedTask e w s t

/-- The error the call `discover(ctx, BaseURL, 0)` returns, read off the seed:
`url.Parse` fails on it, or it is a directory answered with status 200 and a
body from which no document can be built; in every other case `nil`. -/
def rootVerdict (e : Engine) (w : Web) : Option GoError :=
  if (0 : Int) > e.config.MaxDepth then none
  else
    match w.parse e.config.BaseURL with
    | none => some .urlParseErr
    | some _ =>
      if isFile e.config.BaseURL = true then none
      else
        match w.answer .GET e.config.BaseURL with
        | .response status none => if status = 200 then some .documentErr else none
        | _ => none

/-- A task that does not belong to the call made by `DiscoverStructure`. -/
def plainTask : Task → Prop
  | .call _ _ r => r = false
  | .fetch _ _ _ r => r = false
  | .record _ => True
  | .scan _ _ _ => True

/-- The invariant of the root call: it has not started, or it is about to
request the seed, or what it returns is settled. -/
def Rooted (e : Engine) (w : Web) (s : Spider) (ts : List Task) : Prop :=
  (ts = [.call e.config.BaseURL 0 true] ∧ s = (Crawl.start e).spider) ∨
  (∃ p, w.parse e.config.BaseURL = some p ∧ (0 : Int) ≤ e.config.MaxDepth ∧
    ts = [.fetch e.config.BaseURL p 0 true] ∧ s.rootErr = none) ∨
  ((∀ t ∈ ts, plainTask t) ∧ s.rootErr = rootVerdict e w)

/-- The setting of the end-to-end scenario: depth bound 1, a seed directory that
parses to `P` and is answered with status 200 and the anchors `hrefs`, and a
`url.Parse` that accepts the rendering of every listed link. -/
def DepthOneSetting (e : Engine) (w : Web) (P : URL) (hrefs : List String) : Prop :=
  e.config.MaxDepth = 1 ∧ isFile e.config.BaseURL = false ∧
  w.parse e.config.BaseURL = some P ∧
  w.answer .GET e.config.BaseURL = .response 200 (some hrefs) ∧
  ∀ u, Qualifies e w P hrefs u → w.parse u ≠ none

/-- What the depth bound 1 keeps true of a task. -/
def okTask (e : Engine) (w : Web) (P : URL) (hrefs : List String) : Task → Prop
  | .call u d r =>
    (r = true → u = e.config.BaseURL ∧ d = 0) ∧
    (r = false → (d = 1 ∧ ∃ h ∈ hrefs, GoodLink w P h u) ∨ 2 ≤ d)
  | .fetch u p d r =>
    (r = true → u = e.config.BaseURL ∧ d = 0 ∧ p = P) ∧
    (r = false → d = 1 ∧ ∃ h ∈ hrefs, GoodLink w P h u)
  | .record u => Qualifies e w P hrefs u
  | .scan p d hs => d = 0 → p = P ∧ ∀ h ∈ hs, h ∈ hrefs

/-- A listed URL `u` is on its way to the visited set. -/
def Pending (e : Engine) (w : Web) (P : URL) (s : Spider) (ts : List Task) (u : String) : Prop :=
  Task.call e.config.BaseURL 0 true ∈ ts ∨ Task.fetch e.config.BaseURL P 0 true ∈ ts ∨
  (∃ hs, Task.scan P 0 hs ∈ ts ∧ ∃ h ∈ hs, GoodLink w P h u) ∨
  Task.call u 1 false ∈ ts ∨ u ∈ s.visited

/-- The invariant of a run with depth bound 1. -/
def DepthOne (e : Engine) (w : Web) (P : URL) (hrefs : List String) (s : Spider)
    (ts : List Task) : Prop :=
  (Task.call e.config.BaseURL 0 true ∈ ts →
    s.visited = [] ∧ ts = [Task.call e.config.BaseURL 0 true]) ∧
  (∀ u ∈ s.discovered, Qualifies e w P hrefs u) ∧
  (∀ t ∈ ts, okTask e w P hrefs t) ∧
  (∀ u, Qualifies e w P hrefs u →
    Pending e w P s ts u ∧
    (u ∈ s.visited → (∃ p d r, Task.fetch u p d r ∈ ts) ∨ (∃ m, (m, u) ∈ s.requests)) ∧
    ((∃ m, (m, u) ∈ s.requests) → Task.record u ∈ ts ∨ u ∈ s.discovered))

/-! ## Theorems: rate controller -/

theorem validTimes_eq_self (cutoff : Int) (ts : List Int) (h : ∀ t ∈ ts, cutoff < t) :
    validTimes cutoff ts = ts := by
  unfold validTimes
  rw [List.filter_eq_self]
  intro t ht
  simpa using h t ht

theorem validTimes_length_le (cutoff : Int) (ts : List Int) :
    (validTimes cutoff ts).length ≤ ts.length := by
  unfold validTimes
  exact List.length_filter_le _ _

/-- With at least one request allowed per window the pacing call never panics. -/
theorem handleSpecialRateLimit_total (cfg : Config) (ctx : Option Int) (env : Env)
    (s : RateState) (now : Int) (hN : 1 ≤ cfg.MaxRequests) :
    ∃ a, handleSpecialRateLimit cfg ctx env s now = .ok a := by
  unfold handleSpecialRateLimit
  simp only []
  split
  · rename_i hlen
    split
    · rename_i hnil
      rw [hnil] at hlen
      simp at hlen
      omega
    · split
      · split
        · split <;> exact ⟨_, rfl⟩
        · exact ⟨_, rfl⟩
      · exact ⟨_, rfl⟩
  · exact ⟨_, rfl⟩

/-- C10: the read of `requestTimes[0]` is out of bounds whenever `MaxRequests`
is zero or negative and no timestamp survives the pruning, as on the first
request of a run: `len(requestTimes) >= MaxRequests` holds for the empty list
and the call panics with index out of range. -/
theorem handleSpecialRateLimit_index_panic (cfg : Config) (ctx : Option Int) (env : Env)
    (now : Int) (hN : cfg.MaxRequests ≤ 0) :
    handleSpecialRateLimit cfg ctx env RateState.new now = .error .indexOutOfRange := by
  unfold handleSpecialRateLimit blockPhase RateState.new validTimes
  simp [hN]

theorem handleSpecialRateLimit_index_panic_witness :
    (({ sampleConfig with MaxRequests := 0 } : Config).MaxRequests ≤ 0) ∧
    handleSpecialRateLimit { sampleConfig with MaxRequests := 0 } none Env.alone
      RateState.new 1000 = .error .indexOutOfRange :=
  ⟨by decide, handleSpecialRateLimit_index_panic _ none Env.alone 1000 (by decide)⟩

/-- C3: when a block was recorded at the non-zero instant `t = lastBlockTime`
and the call comes at `now` with `now - t < BlockDuration`, the call sleeps
`BlockDuration - (now - t)` before going on, whatever it returns it returns no
earlier than `t + BlockDuration`, and it does return when `MaxRequests ≥ 1`;
when `now - t ≥ BlockDuration` no block sleep is made. -/
theorem handleSpecialRateLimit_block_wait (cfg : Config) (ctx : Option Int) (env : Env)
    (s : RateState) (now : Int) (hz : s.lastBlockTime ≠ 0) :
    (now - s.lastBlockTime < cfg.BlockDuration →
      (blockPhase cfg env s now).2.2 = some (cfg.BlockDuration - (now - s.lastBlockTime)) ∧
      s.lastBlockTime + cfg.BlockDuration ≤ (blockPhase cfg env s now).2.1 ∧
      (∀ a, handleSpecialRateLimit cfg ctx env s now = .ok a →
        a.blockWait = some (cfg.BlockDuration - (now - s.lastBlockTime)) ∧
        s.lastBlockTime + cfg.BlockDuration ≤ a.ret) ∧
      (1 ≤ cfg.MaxRequests → ∃ a, handleSpecialRateLimit cfg ctx env s now = .ok a)) ∧
    (cfg.BlockDuration ≤ now - s.lastBlockTime →
      blockPhase cfg env s now = (s, now, none) ∧
      (∀ a, handleSpecialRateLimit cfg ctx env s now = .ok a → a.blockWait = none) ∧
      (1 ≤ cfg.MaxRequests → ∃ a, handleSpecialRateLimit cfg ctx env s now = .ok a)) := by
  refine ⟨fun hlt => ?_, fun hge => ?_⟩
  · have hb : blockPhase cfg env s now =
        (env.duringBlock s, now + (cfg.BlockDuration - (now - s.lastBlockTime)) + env.blockLag,
          some (cfg.BlockDuration - (now - s.lastBlockTime))) := by
      unfold blockPhase
      simp [hz, hlt]
    refine ⟨by rw [hb], ?_, ?_, fun hN => handleSpecialRateLimit_total cfg ctx env s now hN⟩
    · rw [hb]
      show s.lastBlockTime + cfg.BlockDuration ≤
        now + (cfg.BlockDuration - (now - s.lastBlockTime)) + env.blockLag
      omega
    · intro a ha
      unfold handleSpecialRateLimit at ha
      rw [hb] at ha
      simp only [] at ha
      split at ha
      · split at ha
        · cases ha
        · split at ha
          · split at ha
            · split at ha
              · cases ha
                refine ⟨rfl, ?_⟩
                show s.lastBlockTime + cfg.BlockDuration ≤ max _ _ + (env.waitLag : Int)
                have := le_max_right (α := Int) ‹Int›
                  (now + (cfg.BlockDuration - (now - s.lastBlockTime)) + env.blockLag)
                omega
              · cases ha
                refine ⟨rfl, ?_⟩
                rename_i hw _ _ _
                show s.lastBlockTime + cfg.BlockDuration ≤ _ + _ + (env.waitLag : Int)
                omega
            · cases ha
              refine ⟨rfl, ?_⟩
              rename_i hw
              show s.lastBlockTime + cfg.BlockDuration ≤ _ + _ + (env.waitLag : Int)
              omega
          · cases ha
            refine ⟨rfl, ?_⟩
            show s.lastBlockTime + cfg.BlockDuration ≤
              now + (cfg.BlockDuration - (now - s.lastBlockTime)) + env.blockLag
            omega
      · cases ha
        refine ⟨rfl, ?_⟩
        show s.lastBlockTime + cfg.BlockDuration ≤
          now + (cfg.BlockDuration - (now - s.lastBlockTime)) + env.blockLag
        omega
  · have hb : blockPhase cfg env s now = (s, now, none) := by
      unfold blockPhase
      simp [hz, not_lt.mpr hge]
    refine ⟨hb, ?_, fun hN => handleSpecialRateLimit_total cfg ctx env s now hN⟩
    intro a ha
    unfold handleSpecialRateLimit at ha
    rw [hb] at ha
    simp only [] at ha
    split at ha
    · split at ha
      · cases ha
      · split at ha
        · split at ha
          · split at ha <;> cases ha <;> rfl
          · cases ha; rfl
        · cases ha; rfl
    · cases ha; rfl

theorem handleSpecialRateLimit_block_wait_witness :
    ∃ a, handleSpecialRateLimit sampleConfig none Env.alone
        { requestTimes := [], lastBlockTime := 1000 } 4000000000 = .ok a ∧
      a.blockWait = some (10000000000 - (4000000000 - 1000)) ∧
      1000 + 10000000000 ≤ a.ret := by
  have h := handleSpecialRateLimit_block_wait sampleConfig none Env.alone
    { requestTimes := [], lastBlockTime := 1000 } 4000000000 (by decide)
  obtain ⟨a, ha⟩ := (h.1 (by decide)).2.2.2 (by decide)
  exact ⟨a, ha, (h.1 (by decide)).2.2.1 a ha⟩

theorem wrap64_of_range (x : Int) (h1 : -9223372036854775808 ≤ x)
    (h2 : x < 9223372036854775808) : wrap64 x = x := by
  unfold wrap64; omega

/-- With a positive window the cutoff is exactly one window before `now`. -/
theorem cutoff_of_pos (cfg : Config) (now : Int) (h1 : 0 < cfg.TimeWindow)
    (h2 : cfg.TimeWindow < 9223372036854775808) : cutoff cfg now = now - cfg.TimeWindow := by
  unfold cutoff wrap64; omega

/-- The arithmetic of the window check for an oldest timestamp `t1` that is
past and after the cutoff: unless the window is the least `Duration` the
cutoff and the wait are the exact values; and whether the call waits or not,
it is over no earlier than `t1 + TimeWindow`. -/
theorem window_arith (cfg : Config) (now t1 : Int)
    (hlo : -9223372036854775808 ≤ cfg.TimeWindow) (hhi : cfg.TimeWindow < 9223372036854775808)
    (hin : cutoff cfg now < t1) (hpast : t1 ≤ now) :
    (cfg.TimeWindow ≠ -9223372036854775808 →
      cutoff cfg now = now - cfg.TimeWindow ∧
      waitTime cfg now t1 = cfg.TimeWindow - (now - t1) ∧
      0 < waitTime cfg now t1) ∧
    (0 < waitTime cfg now t1 → t1 + cfg.TimeWindow ≤ now + waitTime cfg now t1) ∧
    (¬ 0 < waitTime cfg now t1 → t1 + cfg.TimeWindow ≤ now) := by
  unfold cutoff waitTime wrap64 sat64 at *
  omega

/-- The pacing call on a state with zero `lastBlockTime` whose timestamps
`t1 :: rest` number at least `MaxRequests` and all lie after the cutoff: what
it does is decided by the wait computed from `t1` and by the context. -/
theorem handleSpecialRateLimit_full_window (cfg : Config) (ctx : Option Int) (env : Env)
    (s : RateState) (now t1 : Int) (rest : List Int)
    (hz : s.lastBlockTime = 0) (hts : s.requestTimes = t1 :: rest)
    (hN : cfg.MaxRequests ≤ ((t1 :: rest).length : Int))
    (hin : ∀ t ∈ t1 :: rest, cutoff cfg now < t) :
    handleSpecialRateLimit cfg ctx env s now =
      if waitTime cfg now t1 > 0 then
        match ctx with
        | some c =>
          if c < now + waitTime cfg now t1 then
            .ok { err := some .ctxErr, st := env.duringWait s,
                  ret := max c now + env.waitLag,
                  blockWait := none, windowWait := some (waitTime cfg now t1) }
          else
            .ok { err := none, st := env.duringWait s,
                  ret := now + waitTime cfg now t1 + env.waitLag,
                  blockWait := none, windowWait := some (waitTime cfg now t1) }
        | none =>
          .ok { err := none, st := env.duringWait s,
                ret := now + waitTime cfg now t1 + env.waitLag,
                blockWait := none, windowWait := some (waitTime cfg now t1) }
      else
        .ok { err := none, st := s, ret := now, blockWait := none, windowWait := none } := by
  have hb : blockPhase cfg env s now = (s, now, none) := by
    unfold blockPhase
    simp [hz]
  have hv : validTimes (cutoff cfg now) s.requestTimes = t1 :: rest := by
    rw [hts]
    exact validTimes_eq_self _ _ hin
  have hs : ({ s with requestTimes := t1 :: rest } : RateState) = s := by
    cases s
    simp_all
  unfold handleSpecialRateLimit
  rw [hb]
  simp only [hv, hs]
  rw [if_pos (by simpa using hN)]

/-- The pacing call on a state with zero `lastBlockTime` whose surviving
timestamps number fewer than `MaxRequests`: it returns at once. -/
theorem handleSpecialRateLimit_under_limit (cfg : Config) (ctx : Option Int) (env : Env)
    (s : RateState) (now : Int) (hz : s.lastBlockTime = 0)
    (hlt : ((validTimes (cutoff cfg now) s.requestTimes).length : Int) < cfg.MaxRequests) :
    handleSpecialRateLimit cfg ctx env s now =
      .ok { err := none,
            st := { s with requestTimes := validTimes (cutoff cfg now) s.requestTimes },
            ret := now, blockWait := none, windowWait := none } := by
  have hb : blockPhase cfg env s now = (s, now, none) := by
    unfold blockPhase
    simp [hz]
  unfold handleSpecialRateLimit
  rw [hb]
  simp only []
  rw [if_neg (by simpa using hlt)]

/-- The same call under a context cancelled during the wait: it returns the
context's error when the cancellation comes, without waiting for the timer. -/
theorem handleSpecialRateLimit_cancelled (cfg : Config) (c : Int) (env : Env)
    (s : RateState) (now t1 : Int) (rest : List Int)
    (hz : s.lastBlockTime = 0) (hts : s.requestTimes = t1 :: rest)
    (hN : cfg.MaxRequests ≤ ((t1 :: rest).length : Int))
    (hin : ∀ t ∈ t1 :: rest, cutoff cfg now < t)
    (hw : 0 < waitTime cfg now t1) (hc : c < now + waitTime cfg now t1) :
    handleSpecialRateLimit cfg (some c) env s now =
      .ok { err := some .ctxErr, st := env.duringWait s, ret := max c now + env.waitLag,
            blockWait := none, windowWait := some (waitTime cfg now t1) } := by
  rw [handleSpecialRateLimit_full_window cfg (some c) env s now t1 rest hz hts hN hin,
    if_pos hw]
  simp only []
  rw [if_pos hc]

/-- The pacing call on a full window under the context `context.Background()`. -/
theorem handleSpecialRateLimit_paced (cfg : Config) (env : Env)
    (s : RateState) (now t1 : Int) (rest : List Int)
    (hlo : -9223372036854775808 ≤ cfg.TimeWindow) (hhi : cfg.TimeWindow < 9223372036854775808)
    (hz : s.lastBlockTime = 0) (hts : s.requestTimes = t1 :: rest)
    (hN : cfg.MaxRequests ≤ ((t1 :: rest).length : Int))
    (hin : ∀ t ∈ t1 :: rest, cutoff cfg now < t) (hpast : t1 ≤ now) :
    ∃ a, handleSpecialRateLimit cfg none env s now = .ok a ∧
      a.err = none ∧ a.blockWait = none ∧
      a.windowWait = (if 0 < waitTime cfg now t1 then some (waitTime cfg now t1) else none) ∧
      t1 + cfg.TimeWindow ≤ a.ret ∧
      (cfg.TimeWindow ≠ -9223372036854775808 →
        a.windowWait = some (cfg.TimeWindow - (now - t1)) ∧
        a.ret = t1 + cfg.TimeWindow + env.waitLag) := by
  have hfull := handleSpecialRateLimit_full_window cfg none env s now t1 rest hz hts hN hin
  obtain ⟨h1, h2, h3⟩ := window_arith cfg now t1 hlo hhi (hin t1 (List.mem_cons_self _ _)) hpast
  by_cases hw : 0 < waitTime cfg now t1
  · rw [if_pos hw] at hfull
    refine ⟨_, hfull, rfl, rfl, by rw [if_pos hw], ?_, fun hne => ?_⟩
    · show t1 + cfg.TimeWindow ≤ now + waitTime cfg now t1 + (env.waitLag : Int)
      have := h2 hw
      omega
    · obtain ⟨-, e2, -⟩ := h1 hne
      refine ⟨by rw [e2], ?_⟩
      show now + waitTime cfg now t1 + (env.waitLag : Int) = _
      rw [e2]
      omega
  · rw [if_neg hw] at hfull
    refine ⟨_, hfull, rfl, rfl, by rw [if_neg hw], h3 hw, fun hne => ?_⟩
    exact absurd (h1 hne).2.2 hw

/-- A `makeRequest` call in sliding-window mode hands back the record of its pacing call. -/
theorem makeRequest_pacing (cfg : Config) (ctx : Option Int) (x : Exchange)
    (s : RateState) (now : Int) (a : Pacing) (hsp : cfg.SpecialRate = true)
    (ha : handleSpecialRateLimit cfg ctx x.env s now = .ok a) :
    ∃ r, makeRequest cfg ctx x s now = .ok r ∧ r.pacing = some a := by
  unfold makeRequest
  rw [if_pos hsp, ha]
  simp only []
  split
  · exact ⟨_, rfl, rfl⟩
  · split
    · exact ⟨_, rfl, rfl⟩
    · split
      · split <;> exact ⟨_, rfl, rfl⟩
      · exact ⟨_, rfl, rfl⟩

/-- A `makeRequest` call in sliding-window mode that is admitted, sent, and
answered by no throttling status records its timestamp and nothing else. -/
theorem makeRequest_tracked (cfg : Config) (ctx : Option Int) (x : Exchange)
    (s : RateState) (now : Int) (a : Pacing) (hsp : cfg.SpecialRate = true)
    (ha : handleSpecialRateLimit cfg ctx x.env s now = .ok a) (he : a.err = none)
    (hreq : x.newRequestFails = false)
    (hst : ∀ code, x.status = some code → isBlockStatus code = false) :
    ∃ r, makeRequest cfg ctx x s now = .ok r ∧ r.pacing = some a ∧ r.status = x.status ∧
      r.blockedAt = none ∧
      r.st = trackRequest a.st (a.ret + x.latency + x.trackLag) ∧
      r.ret = a.ret + x.latency + x.trackLag := by
  unfold makeRequest
  rw [if_pos hsp, ha]
  simp only [he, hreq]
  cases hx : x.status with
  | none => exact ⟨_, rfl, rfl, rfl, rfl, rfl, rfl⟩
  | some code =>
    simp [hst code hx]

/-- Three back-to-back calls of a single caller from a fresh state with two
requests allowed per window: the third pacing call returns no earlier than one
window after the timestamp recorded by the first call. -/
theorem session_third_call (cfg : Config) (x1 x2 x3 : Exchange) (now : Int)
    (hsp : cfg.SpecialRate = true) (hN : cfg.MaxRequests = 2) (hW : 0 < cfg.TimeWindow)
    (hhi : cfg.TimeWindow < 9223372036854775808)
    (h1 : x1.newRequestFails = false) (h2 : x2.newRequestFails = false)
    (hs1 : ∀ code, x1.status = some code → isBlockStatus code = false)
    (hs2 : ∀ code, x2.status = some code → isBlockStatus code = false) :
    ∃ r1 r2 r3 s' now' a3,
      session cfg none [x1, x2, x3] RateState.new now = .ok ([r1, r2, r3], s', now') ∧
      r1.st.requestTimes = [now + x1.latency + x1.trackLag] ∧
      r3.pacing = some a3 ∧ a3.err = none ∧
      (now + x1.latency + x1.trackLag) + cfg.TimeWindow ≤ a3.ret := by
  have hcut : ∀ n, cutoff cfg n = n - cfg.TimeWindow := fun n => cutoff_of_pos cfg n hW hhi
  -- first call
  have e1 := handleSpecialRateLimit_under_limit cfg none x1.env RateState.new now rfl
    (by simp [RateState.new, validTimes, hN])
  obtain ⟨r1, hr1, -, -, -, hst1, hret1⟩ :=
    makeRequest_tracked cfg none x1 _ now _ hsp e1 rfl h1 hs1
  simp only [RateState.new, validTimes, List.filter_nil, trackRequest, List.nil_append] at hst1
  simp only [] at hret1
  -- second call
  have e2 := handleSpecialRateLimit_under_limit cfg none x2.env r1.st r1.ret
    (by rw [hst1]) (by
      have := validTimes_length_le (cutoff cfg r1.ret) r1.st.requestTimes
      rw [hst1] at this ⊢
      simp only [List.length_singleton] at this
      rw [hN]
      exact_mod_cast Nat.lt_succ_of_le this)
  obtain ⟨r2, hr2, -, -, -, hst2, hret2⟩ :=
    makeRequest_tracked cfg none x2 _ _ _ hsp e2 rfl h2 hs2
  have hv2 : validTimes (cutoff cfg r1.ret) r1.st.requestTimes
      = [now + x1.latency + x1.trackLag] := by
    rw [hst1]
    apply validTimes_eq_self
    intro t ht
    simp only [List.mem_singleton] at ht
    rw [ht, hret1, hcut]
    omega
  simp only [hv2, trackRequest, List.singleton_append] at hst2
  simp only [hret1] at hret2
  -- third call
  have hz3 : r2.st.lastBlockTime = 0 := by rw [hst2, hst1]
  have hts3 : r2.st.requestTimes =
      [now + x1.latency + x1.trackLag, now + x1.latency + x1.trackLag + x2.latency + x2.trackLag] := by
    rw [hst2, hret1]
  by_cases hc : cutoff cfg r2.ret < now + x1.latency + x1.trackLag
  · obtain ⟨a3, e3, herr, -, -, hret, -⟩ :=
      handleSpecialRateLimit_paced cfg x3.env r2.st r2.ret _ _ (by omega) hhi hz3 hts3
        (by simp [hN]) (by
          intro t ht
          simp only [List.mem_cons, List.mem_singleton, List.not_mem_nil, or_false] at ht
          rcases ht with rfl | rfl
          · exact hc
          · rw [hret2, hcut]; omega) (by rw [hret2]; omega)
    obtain ⟨r3, hr3, had3⟩ := makeRequest_pacing cfg none x3 _ _ _ hsp e3
    refine ⟨r1, r2, r3, r3.st, r3.ret, a3, ?_, hst1 ▸ rfl, had3, herr, hret⟩
    simp only [session, hr1, hr2, hr3]
  · have hv3 : validTimes (cutoff cfg r2.ret) r2.st.requestTimes =
        [now + x1.latency + x1.trackLag + x2.latency + x2.trackLag] := by
      rw [hts3]
      unfold validTimes
      rw [List.filter_cons_of_neg (by simpa using hc)]
      rw [List.filter_cons_of_pos (by rw [hret2, hcut]; simpa using hW)]
      rfl
    have e3 := handleSpecialRateLimit_under_limit cfg none x3.env r2.st r2.ret hz3
      (by rw [hv3, hN]; simp)
    obtain ⟨r3, hr3, had3⟩ := makeRequest_pacing cfg none x3 _ _ _ hsp e3
    refine ⟨r1, r2, r3, r3.st, r3.ret, _, ?_, hst1 ▸ rfl, had3, rfl, ?_⟩
    · simp only [session, hr1, hr2, hr3]
    · show _ ≤ r2.ret
      rw [hcut] at hc
      omega

/-- C2: under the context the program runs with (`context.Background()`,
never cancelled), for every `MaxRequests` and every window that is a
`Duration`, when `lastBlockTime` is zero and at least `MaxRequests` timestamps
`t1 :: rest` are recorded, `t1` a past instant and all of them after the
cutoff, the pacing call prunes nothing, returns `nil`, and returns no earlier
than `t1 + TimeWindow`; the wait it computes is the `int64` value of
`TimeWindow - (now - t1)`, which is that exact value unless the window is the
least `Duration`, and the call then returns at `t1 + TimeWindow` plus the
overshoot of the timer.  With two requests per window, the third of three
back-to-back calls is admitted no earlier than one window after the first
call's timestamp.  Under a context cancelled at `c` the same call fails with
the context's error at `c` when `c` comes before the timer fires, and is
otherwise as under `context.Background()`. -/
theorem sliding_window_pacing :
    (∀ (cfg : Config) (env : Env) (s : RateState) (now t1 : Int) (rest : List Int),
      -9223372036854775808 ≤ cfg.TimeWindow → cfg.TimeWindow < 9223372036854775808 →
      s.lastBlockTime = 0 → s.requestTimes = t1 :: rest →
      cfg.MaxRequests ≤ ((t1 :: rest).length : Int) →
      (∀ t ∈ t1 :: rest, cutoff cfg now < t) → t1 ≤ now →
      validTimes (cutoff cfg now) s.requestTimes = s.requestTimes ∧
      ∃ a, handleSpecialRateLimit cfg none env s now = .ok a ∧
        a.err = none ∧ a.blockWait = none ∧
        a.windowWait =
          (if 0 < waitTime cfg now t1 then some (waitTime cfg now t1) else none) ∧
        t1 + cfg.TimeWindow ≤ a.ret ∧
        (cfg.TimeWindow ≠ -9223372036854775808 →
          cutoff cfg now = now - cfg.TimeWindow ∧
          a.windowWait = some (cfg.TimeWindow - (now - t1)) ∧
          a.ret = t1 + cfg.TimeWindow + env.waitLag)) ∧
    (∀ (cfg : Config) (x1 x2 x3 : Exchange) (now : Int),
      cfg.SpecialRate = true → cfg.MaxRequests = 2 →
      0 < cfg.TimeWindow → cfg.TimeWindow < 9223372036854775808 →
      x1.newRequestFails = false → x2.newRequestFails = false →
      (∀ code, x1.status = some code → isBlockStatus code = false) →
      (∀ code, x2.status = some code → isBlockStatus code = false) →
      ∃ r1 r2 r3 s' now' a3,
        session cfg none [x1, x2, x3] RateState.new now = .ok ([r1, r2, r3], s', now') ∧
        r1.st.requestTimes = [now + x1.latency + x1.trackLag] ∧
        r3.pacing = some a3 ∧ a3.err = none ∧
        (now + x1.latency + x1.trackLag) + cfg.TimeWindow ≤ a3.ret) ∧
    (∀ (cfg : Config) (c : Int) (env : Env) (s : RateState) (now t1 : Int) (rest : List Int),
      s.lastBlockTime = 0 → s.requestTimes = t1 :: rest →
      cfg.MaxRequests ≤ ((t1 :: rest).length : Int) →
      (∀ t ∈ t1 :: rest, cutoff cfg now < t) → 0 < waitTime cfg now t1 →
      (c < now + waitTime cfg now t1 →
        handleSpecialRateLimit cfg (some c) env s now =
          .ok { err := some .ctxErr, st := env.duringWait s, ret := max c now + env.waitLag,
                blockWait := none, windowWait := some (waitTime cfg now t1) }) ∧
      (now + waitTime cfg now t1 ≤ c →
        handleSpecialRateLimit cfg (some c) env s now =
          handleSpecialRateLimit cfg none env s now)) := by
  refine ⟨?_, fun cfg x1 x2 x3 now hsp hN hW hhi h1 h2 hs1 hs2 =>
    session_third_call cfg x1 x2 x3 now hsp hN hW hhi h1 h2 hs1 hs2, ?_⟩
  · intro cfg env s now t1 rest hlo hhi hz hts hN hin hpast
    obtain ⟨a, ha, herr, hbw, hww, hret, hexact⟩ :=
      handleSpecialRateLimit_paced cfg env s now t1 rest hlo hhi hz hts hN hin hpast
    refine ⟨by rw [hts]; exact validTimes_eq_self _ _ hin, a, ha, herr, hbw, hww, hret,
      fun hne => ?_⟩
    have harith :=
      (window_arith cfg now t1 hlo hhi (hin t1 (List.mem_cons_self _ _)) hpast).1 hne
    exact ⟨harith.1, (hexact hne).1, (hexact hne).2⟩
  · intro cfg c env s now t1 rest hz hts hN hin hw
    refine ⟨fun hc =>
      handleSpecialRateLimit_cancelled cfg c env s now t1 rest hz hts hN hin hw hc,
      fun hc => ?_⟩
    rw [handleSpecialRateLimit_full_window cfg (some c) env s now t1 rest hz hts hN hin,
      handleSpecialRateLimit_full_window cfg none env s now t1 rest hz hts hN hin,
      if_pos hw]
    simp only []
    rw [if_neg (not_lt.mpr hc), if_pos hw]

theorem sliding_window_pacing_witness :
    (validTimes (cutoff sampleConfig 3000000000)
        ({ requestTimes := [1000000000, 2000000000], lastBlockTime := 0 } : RateState).requestTimes
      = ({ requestTimes := [1000000000, 2000000000], lastBlockTime := 0 } : RateState).requestTimes ∧
      ∃ a, handleSpecialRateLimit sampleConfig none Env.alone
          { requestTimes := [1000000000, 2000000000], lastBlockTime := 0 } 3000000000 = .ok a ∧
        a.err = none ∧ a.blockWait = none ∧
        a.windowWait =
          (if 0 < waitTime sampleConfig 3000000000 1000000000
            then some (waitTime sampleConfig 3000000000 1000000000) else none) ∧
        1000000000 + sampleConfig.TimeWindow ≤ a.ret ∧
        (sampleConfig.TimeWindow ≠ -9223372036854775808 →
          cutoff sampleConfig 3000000000 = 3000000000 - sampleConfig.TimeWindow ∧
          a.windowWait = some (sampleConfig.TimeWindow - (3000000000 - 1000000000)) ∧
          a.ret = 1000000000 + sampleConfig.TimeWindow + Env.alone.waitLag)) ∧
    ∃ r1 r2 r3 s' now' a3,
      session sampleConfig none
        [sampleExchange 200, sampleExchange 404, sampleExchange 200]
        RateState.new 1 = .ok ([r1, r2, r3], s', now') ∧
      r1.st.requestTimes = [1 + (sampleExchange 200).latency + (sampleExchange 200).trackLag] ∧
      r3.pacing = some a3 ∧ a3.err = none ∧
      (1 + (sampleExchange 200).latency + (sampleExchange 200).trackLag)
        + sampleConfig.TimeWindow ≤ a3.ret :=
  ⟨sliding_window_pacing.1 sampleConfig Env.alone
      { requestTimes := [1000000000, 2000000000], lastBlockTime := 0 } 3000000000
      1000000000 [2000000000] (by decide) (by decide) rfl rfl (by decide) (by decide)
      (by decide),
    sliding_window_pacing.2.1 sampleConfig _ _ _ 1 rfl rfl (by decide) (by decide) rfl rfl
      (by decide) (by decide)⟩

/-- The window check at the least `Duration`: the negation wraps to itself, so
the timestamp is kept, and the subtraction wraps to a wait of `2^63 - 1000`
nanoseconds. -/
theorem handleSpecialRateLimit_least_window :
    handleSpecialRateLimit
        { sampleConfig with MaxRequests := 1, TimeWindow := -9223372036854775808 }
        none Env.alone { requestTimes := [1000], lastBlockTime := 0 } 2000 =
      .ok { err := none, st := { requestTimes := [1000], lastBlockTime := 0 },
            ret := 2000 + 9223372036854774808, blockWait := none,
            windowWait := some 9223372036854774808 } :=
  rfl

/-- C5: `shouldAcceptURL` is true unless a reject pattern is configured and
matches, or an accept pattern is configured and does not match; so a matching
reject pattern gives false whatever the accept pattern, and with no pattern
configured every URL is accepted. -/
theorem shouldAcceptURL_spec (acceptRegex rejectRegex : Option Regexp) (rawURL : String) :
    (shouldAcceptURL acceptRegex rejectRegex rawURL = true ↔
      ¬ ((∃ re, rejectRegex = some re ∧ re.MatchString rawURL = true) ∨
         (∃ re, acceptRegex = some re ∧ re.MatchString rawURL = false))) ∧
    (∀ re, rejectRegex = some re → re.MatchString rawURL = true →
      shouldAcceptURL acceptRegex rejectRegex rawURL = false) ∧
    shouldAcceptURL none none rawURL = true := by
  refine ⟨?_, ?_, rfl⟩
  · cases rejectRegex with
    | none =>
      cases acceptRegex with
      | none => simp [shouldAcceptURL]
      | some acc =>
        cases h : acc.MatchString rawURL <;> simp [shouldAcceptURL, h]
    | some rej =>
      cases hr : rej.MatchString rawURL with
      | true => simp [shouldAcceptURL, hr]
      | false =>
        cases acceptRegex with
        | none => simp [shouldAcceptURL, hr]
        | some acc =>
          cases h : acc.MatchString rawURL <;> simp [shouldAcceptURL, hr, h]
  · intro re hre hm
    subst hre
    simp [shouldAcceptURL, hm]

theorem shouldAcceptURL_spec_witness :
    shouldAcceptURL (some txtPattern) (some privatePattern)
      "https://x.test/private/a.txt" = false :=
  (shouldAcceptURL_spec (some txtPattern) (some privatePattern)
    "https://x.test/private/a.txt").2.1 privatePattern rfl rfl

/-! ## Theorems: discovery engine -/

theorem discover_move (e : Engine) (w : Web) (s : Spider) (t : Task) :
    Move e w s t (discover e w s t).1 (discover e w s t).2 := by
  cases t with
  | call u d r =>
    simp only [discover]
    by_cases hd : (d : Int) > e.config.MaxDepth
    · rw [if_pos hd]; exact .callSkip s u d r (Or.inl hd)
    · rw [if_neg hd]
      by_cases hv : u ∈ s.visited
      · rw [if_pos hv]; exact .callSkip s u d r (Or.inr hv)
      · rw [if_neg hv]
        cases hp : w.parse u with
        | none => exact .callParseFail s u d r (not_lt.mp hd) hv hp
        | some p => exact .callVisit s u d r p (not_lt.mp hd) hv hp
  | fetch u p d r =>
    simp only [discover]
    cases hf : isFile u with
    | true =>
      simp only [if_true]
      cases ha : w.answer .HEAD u with
      | failed err =>
        exact .headNo s u p d r hf (by rintro ⟨doc, h, -⟩; rw [ha] at h; cases h)
      | response status doc =>
        simp only []
        by_cases hc : status = 200 ∧ shouldAcceptURL e.acceptRegex e.rejectRegex u = true
        · rw [if_pos hc]
          exact .headYes s u p d r doc hf (by rw [ha, hc.1]) hc.2
        · rw [if_neg hc]
          refine .headNo s u p d r hf ?_
          rintro ⟨doc', h, hacc⟩
          rw [ha] at h
          cases h
          exact hc ⟨rfl, hacc⟩
    | false =>
      simp only [Bool.false_eq_true, if_false]
      cases ha : w.answer .GET u with
      | failed err =>
        exact .getNo s u p d r hf (by intro doc h; rw [ha] at h; cases h)
      | response status doc =>
        simp only []
        by_cases hc : status = 200
        · subst hc
          rw [if_neg (by simp)]
          cases doc with
          | none => exact .getDocErr s u p d r hf ha
          | some hrefs => exact .getPage s u p d r hrefs hf ha
        · rw [if_pos hc]
          refine .getNo s u p d r hf ?_
          intro doc' h
          rw [ha] at h
          cases h
          exact hc rfl
  | record u => exact .recordIt s u
  | scan p d hrefs =>
    cases hrefs with
    | nil => exact .scanDone s p d
    | cons h hs =>
      simp only [discover]
      cases hr : w.resolve p h with
      | none =>
        exact .scanSkip s p d h hs (by rintro ⟨l, hl, -⟩; rw [hr] at hl; cases hl)
      | some l =>
        simp only []
        by_cases hh : l.Host ≠ p.Host
        · rw [if_pos hh]
          refine .scanSkip s p d h hs ?_
          rintro ⟨l', hl, hhost, -⟩
          rw [hr] at hl; cases hl
          exact hh hhost
        · rw [if_neg hh]
          cases hc : containsStr h ".." with
          | true =>
            simp only [if_true]
            refine .scanSkip s p d h hs ?_
            rintro ⟨l', -, -, hcc, -⟩
            rw [hc] at hcc; cases hcc
          | false =>
            simp only [Bool.false_eq_true, if_false]
            by_cases hv : l.text ∈ s.visited
            · rw [if_pos hv]
              refine .scanSkip s p d h hs ?_
              rintro ⟨l', hl, -, -, hnv⟩
              rw [hr] at hl; cases hl
              exact hnv hv
            · rw [if_neg hv]
              exact .scanSpawn s p d h hs l hr (not_not.mp hh) hc hv

/-- A step either changes nothing or advances one task of the pool. -/
theorem step_cases (e : Engine) (w : Web) (c : Crawl) (i : Nat) :
    step e w c i = c ∨
    ∃ before t later, c.tasks = before ++ t :: later ∧
      step e w c i =
        { spider := (discover e w c.spider t).1,
          tasks := before ++ (discover e w c.spider t).2 ++ later } := by
  unfold step
  cases h : c.tasks.drop i with
  | nil => exact Or.inl rfl
  | cons t later =>
    refine Or.inr ⟨c.tasks.take i, t, later, ?_, rfl⟩
    rw [← h, List.take_append_drop]

/-- Induction over a run, for a property of the shared state and the pool that
does not depend on the order of the pool. -/
theorem run_induction (e : Engine) (w : Web) (P : Spider → List Task → Prop)
    (hperm : ∀ s ts ts', ts.Perm ts' → P s ts → P s ts')
    (hmove : ∀ s t s' new rest, Move e w s t s' new → P s (t :: rest) → P s' (new ++ rest))
    (schedule : List Nat) :
    ∀ c : Crawl, P c.spider c.tasks →
      P (run e w c schedule).spider (run e w c schedule).tasks := by
  induction schedule with
  | nil => intro c h; exact h
  | cons i is ih =>
    intro c h
    show P (run e w (step e w c i) is).spider (run e w (step e w c i) is).tasks
    apply ih
    rcases step_cases e w c i with hs | ⟨before, t, later, htasks, hs⟩
    · rw [hs]; exact h
    · rw [hs]
      have h1 : P c.spider (t :: (before ++ later)) :=
        hperm _ _ _ (by rw [htasks]; exact List.perm_middle) h
      have h2 := hmove _ _ _ _ (before ++ later) (discover_move e w c.spider t) h1
      refine hperm _ _ _ ?_ h2
      show ((discover e w c.spider t).2 ++ (before ++ later)).Perm
        (before ++ (discover e w c.spider t).2 ++ later)
      rw [← List.append_assoc]
      exact List.Perm.append_right later List.perm_append_comm

theorem callCost_pos (w : Web) (n : Nat) (u : String) : 0 < callCost w n u := by
  cases n <;> simp [callCost]

theorem fetchCostWith_pos (w : Web) (child : String → Nat) (u : String) (p : URL) :
    0 < fetchCostWith w child u p := by
  unfold fetchCostWith; omega

theorem scanCostWith_pos (w : Web) (child : String → Nat) (p : URL) (hs : List String) :
    0 < scanCostWith w child p hs := by
  cases hs <;> simp [scanCostWith]

theorem taskCost_pos (e : Engine) (w : Web) (t : Task) : 0 < taskCost e w t := by
  cases t with
  | call u d r => exact callCost_pos _ _ _
  | fetch u p d r => exact fetchCostWith_pos _ _ _ _
  | record u => exact Nat.one_pos
  | scan p d hs => exact scanCostWith_pos _ _ _ _

theorem move_cost (e : Engine) (w : Web) (s s' : Spider) (t : Task) (new : List Task)
    (h : Move e w s t s' new) : poolCost e w new < taskCost e w t := by
  cases h with
  | callSkip u d r _ => simpa [poolCost] using taskCost_pos e w (.call u d r)
  | callParseFail u d r _ _ _ => simpa [poolCost] using taskCost_pos e w (.call u d r)
  | callVisit u d r p hd _ hp =>
    have hk : (e.config.MaxDepth + 1 - d).toNat = (e.config.MaxDepth - d).toNat + 1 := by omega
    simp only [poolCost, taskCost, List.map_cons, List.map_nil, List.sum_cons, List.sum_nil,
      hk, callCost, hp]
    omega
  | headNo u p d r _ _ => simpa [poolCost] using taskCost_pos e w (.fetch u p d r)
  | headYes u p d r doc hf _ _ =>
    simp [poolCost, taskCost, fetchCostWith, hf]
  | getNo u p d r _ _ => simpa [poolCost] using taskCost_pos e w (.fetch u p d r)
  | getDocErr u p d r _ _ => simpa [poolCost] using taskCost_pos e w (.fetch u p d r)
  | getPage u p d r hrefs hf ha =>
    simp [poolCost, taskCost, fetchCostWith, hf, ha]
  | recordIt u => simp [poolCost, taskCost]
  | scanDone p d => simp [poolCost, taskCost, scanCostWith]
  | scanSkip p d h hs _ =>
    simp only [poolCost, taskCost, List.map_cons, List.map_nil, List.sum_cons, List.sum_nil,
      scanCostWith]
    omega
  | scanSpawn p d h hs l hr _ _ _ =>
    have hk : (e.config.MaxDepth + 1 - ((d + 1 : Nat) : Int)).toNat
        = (e.config.MaxDepth - d).toNat := by congr 1; omega
    simp only [poolCost, taskCost, List.map_cons, List.map_nil, List.sum_cons, List.sum_nil,
      scanCostWith, hr, hk]
    omega

/-- Stepping the first task of a pool lowers the bound on the steps left. -/
theorem step_zero_cost (e : Engine) (w : Web) (c : Crawl) (h : c.tasks ≠ []) :
    poolCost e w (step e w c 0).tasks < poolCost e w c.tasks := by
  cases hc : c.tasks with
  | nil => exact absurd hc h
  | cons t rest =>
    have hm := move_cost e w _ _ _ _ (discover_move e w c.spider t)
    simp only [step, hc, List.drop_zero, List.take_zero, List.nil_append, poolCost,
      List.map_append, List.sum_append, List.map_cons, List.sum_cons] at hm ⊢
    omega

/-- Every run can be completed: from every state some schedule empties the pool. -/
theorem run_completes (e : Engine) (w : Web) :
    ∀ (n : Nat) (c : Crawl), poolCost e w c.tasks ≤ n →
      ∃ schedule, (run e w c schedule).tasks = [] := by
  intro n
  induction n with
  | zero =>
    intro c hn
    refine ⟨[], ?_⟩
    cases hc : c.tasks with
    | nil => simpa [run] using hc
    | cons t rest =>
      have := taskCost_pos e w t
      simp [poolCost, hc] at hn
      omega
  | succ n ih =>
    intro c hn
    by_cases hc : c.tasks = []
    · exact ⟨[], by simpa [run] using hc⟩
    · have := step_zero_cost e w c hc
      obtain ⟨sched, hs⟩ := ih (step e w c 0) (by omega)
      exact ⟨0 :: sched, hs⟩

@[simp] theorem returnErr_visited (s : Spider) (r : Bool) (err : GoError) :
    (returnErr s r err).visited = s.visited := by
  unfold returnErr; split <;> rfl

@[simp] theorem returnErr_discovered (s : Spider) (r : Bool) (err : GoError) :
    (returnErr s r err).discovered = s.discovered := by
  unfold returnErr; split <;> rfl

@[simp] theorem returnErr_requests (s : Spider) (r : Bool) (err : GoError) :
    (returnErr s r err).requests = s.requests := by
  unfold returnErr; split <;> rfl

@[simp] theorem returnErr_false (s : Spider) (err : GoError) :
    returnErr s false err = s := rfl

theorem count_single_ne {u v : String} (h : ¬ v = u) : List.count u [v] = 0 := by
  simp [List.count_singleton, h]

theorem Once_perm (u : String) (b b' : Nat) (s : Spider) (ts ts' : List Task)
    (hp : ts.Perm ts') (h : Once u b b' s ts) : Once u b b' s ts' := by
  unfold Once at h ⊢
  rw [← (hp.map (fetching u)).sum_eq, ← (hp.map (recording u)).sum_eq]
  exact h

theorem Once_move (e : Engine) (w : Web) (u : String) (b b' : Nat) (s s' : Spider) (t : Task)
    (new rest : List Task) (hm : Move e w s t s' new) (h : Once u b b' s (t :: rest)) :
    Once u b b' s' (new ++ rest) := by
  unfold Once at h ⊢
  cases hm with
  | callSkip v d r _ => simpa [fetching, recording] using h
  | callParseFail v d r _ hv _ =>
    by_cases hu : u ∈ s.visited <;> by_cases hvu : v = u <;>
      simp_all [fetching, recording, Spider.requested, Spider.listed, count_single_ne] <;> omega
  | callVisit v d r p _ hv _ =>
    by_cases hu : u ∈ s.visited <;> by_cases hvu : v = u <;>
      simp_all [fetching, recording, Spider.requested, Spider.listed, count_single_ne] <;> omega
  | headNo v p d r _ _ =>
    by_cases hu : u ∈ s.visited <;> by_cases hvu : v = u <;>
      simp_all [fetching, recording, Spider.requested, Spider.listed, count_single_ne] <;> omega
  | headYes v p d r doc _ _ _ =>
    by_cases hu : u ∈ s.visited <;> by_cases hvu : v = u <;>
      simp_all [fetching, recording, Spider.requested, Spider.listed, count_single_ne] <;> omega
  | getNo v p d r _ _ =>
    by_cases hu : u ∈ s.visited <;> by_cases hvu : v = u <;>
      simp_all [fetching, recording, Spider.requested, Spider.listed, count_single_ne] <;> omega
  | getDocErr v p d r _ _ =>
    by_cases hu : u ∈ s.visited <;> by_cases hvu : v = u <;>
      simp_all [fetching, recording, Spider.requested, Spider.listed, count_single_ne] <;> omega
  | getPage v p d r hrefs _ _ =>
    by_cases hu : u ∈ s.visited <;> by_cases hvu : v = u <;>
      simp_all [fetching, recording, Spider.requested, Spider.listed, count_single_ne] <;> omega
  | recordIt v =>
    by_cases hu : u ∈ s.visited <;> by_cases hvu : v = u <;>
      simp_all [fetching, recording, Spider.requested, Spider.listed, count_single_ne] <;> omega
  | scanDone p d => simpa [fetching, recording] using h
  | scanSkip p d h hs _ => simpa [fetching, recording] using h
  | scanSpawn p d h hs l _ _ _ _ => simpa [fetching, recording] using h

/-- Along every run, the requests made for `u` and the entries equal to `u`
grow by at most one beyond what the starting state holds or is about to add. -/
theorem run_once (e : Engine) (w : Web) (c : Crawl) (schedule : List Nat) (u : String) :
    (run e w c schedule).spider.requested u
      ≤ (c.tasks.map (fetching u)).sum + c.spider.requested u + 1 ∧
    (run e w c schedule).spider.listed u
      ≤ (c.tasks.map (fetching u)).sum + (c.tasks.map (recording u)).sum
          + c.spider.listed u + 1 := by
  have h := run_induction e w
    (Once u ((c.tasks.map (fetching u)).sum + c.spider.requested u)
      ((c.tasks.map (fetching u)).sum + (c.tasks.map (recording u)).sum + c.spider.listed u))
    (Once_perm u _ _) (fun s t s' new rest => Once_move e w u _ _ s s' t new rest)
    schedule c (by unfold Once; constructor <;> omega)
  unfold Once at h
  obtain ⟨h1, h2⟩ := h
  constructor
  · split at h1 <;> omega
  · split at h2 <;> omega

/-- C6: a `discover` call that finds its URL in the visited set returns at
once, with no request and the shared state unchanged; and two `discover`
calls for one URL, started on any shared state and interleaved in any way,
add at most one request for that URL and at most one entry for it to the
discovered list.  In a run of `DiscoverStructure` every URL is requested at
most once and listed at most once. -/
theorem discover_idempotent (e : Engine) (w : Web) :
    (∀ (s : Spider) (u : String) (d : Nat) (r : Bool), u ∈ s.visited →
      discover e w s (.call u d r) = (s, [])) ∧
    (∀ (s : Spider) (u : String) (d1 d2 : Nat) (schedule : List Nat),
      (run e w { spider := s, tasks := [.call u d1 false, .call u d2 false] }
          schedule).spider.requested u ≤ s.requested u + 1 ∧
      (run e w { spider := s, tasks := [.call u d1 false, .call u d2 false] }
          schedule).spider.listed u ≤ s.listed u + 1) ∧
    (∀ (u : String) (schedule : List Nat),
      (run e w (Crawl.start e) schedule).spider.requested u ≤ 1 ∧
      (run e w (Crawl.start e) schedule).spider.listed u ≤ 1) := by
  refine ⟨?_, ?_, ?_⟩
  · intro s u d r hv
    simp [discover, hv]
  · intro s u d1 d2 schedule
    simpa [fetching, recording] using
      run_once e w { spider := s, tasks := [.call u d1 false, .call u d2 false] } schedule u
  · intro u schedule
    simpa [fetching, recording, Crawl.start, Spider.requested, Spider.listed] using
      run_once e w (Crawl.start e) schedule u

theorem discover_idempotent_witness :
    (run sampleEngine sampleWeb
        { spider := sampleSpider,
          tasks := [.call "https://x.test/files/a.txt" 1 false,
                    .call "https://x.test/files/a.txt" 1 false] }
        [1, 0, 0, 0]).spider.requested "https://x.test/files/a.txt"
      ≤ sampleSpider.requested "https://x.test/files/a.txt" + 1 ∧
    (run sampleEngine sampleWeb
        { spider := sampleSpider,
          tasks := [.call "https://x.test/files/a.txt" 1 false,
                    .call "https://x.test/files/a.txt" 1 false] }
        [1, 0, 0, 0]).spider.listed "https://x.test/files/a.txt"
      ≤ sampleSpider.listed "https://x.test/files/a.txt" + 1 :=
  (discover_idempotent sampleEngine sampleWeb).2.1 sampleSpider
    "https://x.test/files/a.txt" 1 1 [1, 0, 0, 0]

theorem SeedOnly_perm (e : Engine) (s : Spider) (ts ts' : List Task)
    (hp : ts.Perm ts') (h : SeedOnly e s ts) : SeedOnly e s ts' :=
  ⟨h.1, h.2.1, h.2.2.1, fun t ht => h.2.2.2 t (hp.mem_iff.mpr ht)⟩

theorem SeedOnly_move (e : Engine) (w : Web) (h0 : e.config.MaxDepth = 0) (s s' : Spider)
    (t : Task) (new rest : List Task) (hm : Move e w s t s' new)
    (h : SeedOnly e s (t :: rest)) : SeedOnly e s' (new ++ rest) := by
  obtain ⟨hv, hq, hd, ht⟩ := h
  have hrest : ∀ t' ∈ rest, seedTask e t' := fun t' h' => ht t' (List.mem_cons_of_mem _ h')
  have hthis := ht t (List.mem_cons_self _ _)
  cases hm with
  | callSkip v d r _ => exact ⟨hv, hq, hd, by simpa using hrest⟩
  | callParseFail v d r hle _ _ =>
    have hr : r = true := by
      cases r with
      | true => rfl
      | false => have := hthis.2 rfl; omega
    refine ⟨?_, by simpa using hq, by simpa using hd, by simpa using hrest⟩
    intro u hu
    simp only [returnErr_visited, List.mem_append, List.mem_singleton] at hu
    rcases hu with hu | rfl
    · exact hv u hu
    · exact hthis.1 hr
  | callVisit v d r p hle _ _ =>
    have hr : r = true := by
      cases r with
      | true => rfl
      | false => have := hthis.2 rfl; omega
    refine ⟨?_, hq, hd, ?_⟩
    · intro u hu
      simp only [List.mem_append, List.mem_singleton] at hu
      rcases hu with hu | rfl
      · exact hv u hu
      · exact hthis.1 hr
    · intro t' ht'
      simp only [List.cons_append, List.nil_append, List.mem_cons] at ht'
      rcases ht' with rfl | ht'
      · exact hthis.1 hr
      · exact hrest t' ht'
  | headNo v p d r _ _ =>
    refine ⟨hv, ?_, hd, by simpa using hrest⟩
    intro q hq'
    simp only [List.mem_append, List.mem_singleton] at hq'
    rcases hq' with hq' | rfl
    · exact hq q hq'
    · exact hthis
  | headYes v p d r doc _ _ _ =>
    refine ⟨hv, ?_, hd, ?_⟩
    · intro q hq'
      simp only [List.mem_append, List.mem_singleton] at hq'
      rcases hq' with hq' | rfl
      · exact hq q hq'
      · exact hthis
    · intro t' ht'
      simp only [List.cons_append, List.nil_append, List.mem_cons] at ht'
      rcases ht' with rfl | ht'
      · exact hthis
      · exact hrest t' ht'
  | getNo v p d r _ _ =>
    refine ⟨hv, ?_, hd, by simpa using hrest⟩
    intro q hq'
    simp only [List.mem_append, List.mem_singleton] at hq'
    rcases hq' with hq' | rfl
    · exact hq q hq'
    · exact hthis
  | getDocErr v p d r _ _ =>
    refine ⟨by simpa using hv, ?_, by simpa using hd, by simpa using hrest⟩
    intro q hq'
    simp only [returnErr_requests, List.mem_append, List.mem_singleton] at hq'
    rcases hq' with hq' | rfl
    · exact hq q hq'
    · exact hthis
  | getPage v p d r hrefs _ _ =>
    refine ⟨hv, ?_, hd, ?_⟩
    · intro q hq'
      simp only [List.mem_append, List.mem_singleton] at hq'
      rcases hq' with hq' | rfl
      · exact hq q hq'
      · exact hthis
    · intro t' ht'
      simp only [List.cons_append, List.nil_append, List.mem_cons] at ht'
      rcases ht' with rfl | ht'
      · trivial
      · exact hrest t' ht'
  | recordIt v =>
    refine ⟨hv, hq, ?_, by simpa using hrest⟩
    intro u hu
    simp only [List.mem_append, List.mem_singleton] at hu
    rcases hu with hu | rfl
    · exact hd u hu
    · exact hthis
  | scanDone p d => exact ⟨hv, hq, hd, by simpa using hrest⟩
  | scanSkip p d h hs _ =>
    refine ⟨hv, hq, hd, ?_⟩
    intro t' ht'
    simp only [List.cons_append, List.nil_append, List.mem_cons] at ht'
    rcases ht' with rfl | ht'
    · trivial
    · exact hrest t' ht'
  | scanSpawn p d h hs l _ _ _ _ =>
    refine ⟨hv, hq, hd, ?_⟩
    intro t' ht'
    simp only [List.cons_append, List.nil_append, List.mem_cons] at ht'
    rcases ht' with rfl | rfl | ht'
    · trivial
    · simp [seedTask]
    · exact hrest t' ht'

theorem all_eq_length_le (l : List String) (a : String) (h : ∀ u ∈ l, u = a)
    (hc : l.count a ≤ 1) : l = [] ∨ l = [a] := by
  cases l with
  | nil => exact Or.inl rfl
  | cons x xs =>
    have hx := h x (List.mem_cons_self _ _)
    subst hx
    cases xs with
    | nil => exact Or.inr rfl
    | cons y ys =>
      have hy := h y (List.mem_cons_of_mem _ (List.mem_cons_self _ _))
      subst hy
      simp at hc

theorem SeedOnly_run (e : Engine) (w : Web) (h0 : e.config.MaxDepth = 0)
    (schedule : List Nat) :
    SeedOnly e (run e w (Crawl.start e) schedule).spider
      (run e w (Crawl.start e) schedule).tasks := by
  refine run_induction e w (SeedOnly e) (SeedOnly_perm e)
    (fun s t s' new rest => SeedOnly_move e w h0 s s' t new rest) schedule _ ?_
  refine ⟨by simp [Crawl.start], by simp [Crawl.start], by simp [Crawl.start], ?_⟩
  intro t ht
  simp only [Crawl.start, List.mem_singleton] at ht
  subst ht
  simp [seedTask]

/-- Some schedule completes the run of `DiscoverStructure`. -/
theorem DiscoverStructure_returns (e : Engine) (w : Web) :
    ∃ schedule result, DiscoverStructure e w schedule = some result := by
  obtain ⟨schedule, hs⟩ := run_completes e w _ (Crawl.start e) (le_refl _)
  refine ⟨schedule, (run e w (Crawl.start e) schedule).spider.result, ?_⟩
  unfold DiscoverStructure
  simp only []
  rw [if_pos hs]

theorem DiscoverStructure_some (e : Engine) (w : Web) (schedule : List Nat)
    (result : Except GoError (List String))
    (h : DiscoverStructure e w schedule = some result) :
    (run e w (Crawl.start e) schedule).tasks = [] ∧
    result = (run e w (Crawl.start e) schedule).spider.result := by
  unfold DiscoverStructure at h
  simp only [] at h
  split at h
  · rename_i ht
    exact ⟨ht, by cases h; rfl⟩
  · cases h

/-- C7: a `discover` call with `depth > MaxDepth` returns at once, with no
request and the shared state unchanged; and with `MaxDepth = 0`, along every
schedule, every request made is for the seed and there is at most one, no URL
other than the seed is marked visited, and the list returned is empty or the
seed alone; some schedule completes the run. -/
theorem depth_boundary (e : Engine) (w : Web) :
    (∀ (s : Spider) (u : String) (d : Nat) (r : Bool), (d : Int) > e.config.MaxDepth →
      discover e w s (.call u d r) = (s, [])) ∧
    (e.config.MaxDepth = 0 →
      (∀ schedule : List Nat,
        (∀ q ∈ (run e w (Crawl.start e) schedule).spider.requests, q.2 = e.config.BaseURL) ∧
        (run e w (Crawl.start e) schedule).spider.requests.length ≤ 1 ∧
        (∀ u ∈ (run e w (Crawl.start e) schedule).spider.visited, u = e.config.BaseURL) ∧
        (∀ urls, DiscoverStructure e w schedule = some (.ok urls) →
          urls = [] ∨ urls = [e.config.BaseURL])) ∧
      ∃ schedule result, DiscoverStructure e w schedule = some result) := by
  refine ⟨?_, fun h0 => ⟨fun schedule => ?_, DiscoverStructure_returns e w⟩⟩
  · intro s u d r hd
    simp [discover, hd]
  · obtain ⟨hv, hq, hd, -⟩ := SeedOnly_run e w h0 schedule
    obtain ⟨hreq, hlist⟩ := run_once e w (Crawl.start e) schedule e.config.BaseURL
    simp only [Crawl.start, fetching, recording, List.map_cons, List.map_nil, List.sum_cons,
      List.sum_nil, Spider.requested, Spider.listed, List.map_nil, List.count_nil] at hreq hlist
    refine ⟨hq, ?_, hv, ?_⟩
    · have := all_eq_length_le
        ((run e w (Crawl.start e) schedule).spider.requests.map Prod.snd) e.config.BaseURL
        (by
          intro u hu
          obtain ⟨q, hq', rfl⟩ := List.mem_map.mp hu
          exact hq q hq') hreq
      have hl : ((run e w (Crawl.start e) schedule).spider.requests.map Prod.snd).length ≤ 1 := by
        rcases this with h | h <;> rw [h] <;> simp
      simpa using hl
    · intro urls hres
      obtain ⟨-, hr⟩ := DiscoverStructure_some e w schedule _ hres
      unfold Spider.result at hr
      split at hr
      · cases hr
      · cases hr
        rcases all_eq_length_le _ e.config.BaseURL hd hlist with h | h <;> rw [h]
        · exact Or.inl rfl
        · exact Or.inr rfl

theorem depth_boundary_witness :
    ([] : List String) = [] ∨ ([] : List String) = [seedOnlyEngine.config.BaseURL] :=
  (((depth_boundary seedOnlyEngine sampleWeb).2 rfl).1
    [0, 0, 0, 0, 0, 0, 0, 0, 0, 0, 0, 0, 0, 0, 0, 0]).2.2.2 [] rfl

theorem Move_grows (e : Engine) (w : Web) (s s' : Spider) (t : Task) (new : List Task)
    (hm : Move e w s t s' new) :
    (∀ q ∈ s.requests, q ∈ s'.requests) ∧ (∀ u ∈ s.visited, u ∈ s'.visited) := by
  cases hm <;> simp_all

theorem Linked_mono (w : Web) (s s' : Spider) (u : String)
    (hq : ∀ q ∈ s.requests, q ∈ s'.requests) (h : Linked w s u) : Linked w s' u := by
  obtain ⟨page, p, hrefs, h', l, h1, h2⟩ := h
  exact ⟨page, p, hrefs, h', l, hq _ h1, h2⟩

theorem guardedTask_mono (e : Engine) (w : Web) (s s' : Spider) (t : Task)
    (hq : ∀ q ∈ s.requests, q ∈ s'.requests) (hv : ∀ u ∈ s.visited, u ∈ s'.visited)
    (h : guardedTask e w s t) : guardedTask e w s' t := by
  cases t with
  | call u d r => exact ⟨h.1, fun hr => Linked_mono w s s' u hq (h.2 hr)⟩
  | fetch u p d r => exact ⟨h.1, hv u h.2⟩
  | record u => trivial
  | scan p d hs =>
    obtain ⟨page, hrefs, h1, h2⟩ := h
    exact ⟨page, hrefs, hq _ h1, h2⟩

theorem Guarded_perm (e : Engine) (w : Web) (s : Spider) (ts ts' : List Task)
    (hp : ts.Perm ts') (h : Guarded e w s ts) : Guarded e w s ts' :=
  ⟨h.1, h.2.1, fun t ht => h.2.2 t (hp.mem_iff.mpr ht)⟩

theorem Guarded_move (e : Engine) (w : Web) (s s' : Spider) (t : Task)
    (new rest : List Task) (hm : Move e w s t s' new) (h : Guarded e w s (t :: rest)) :
    Guarded e w s' (new ++ rest) := by
  obtain ⟨hv, hq, ht⟩ := h
  obtain ⟨gq, gv⟩ := Move_grows e w s s' t new hm
  have hrest : ∀ t' ∈ rest, guardedTask e w s' t' := fun t' h' =>
    guardedTask_mono e w s s' t' gq gv (ht t' (List.mem_cons_of_mem _ h'))
  have hthis := ht t (List.mem_cons_self _ _)
  have hvis : ∀ u ∈ s.visited, u = e.config.BaseURL ∨ Linked w s' u := fun u hu =>
    (hv u hu).imp id (Linked_mono w s s' u gq)
  have hnew : (∀ t' ∈ new, guardedTask e w s' t') → ∀ t' ∈ new ++ rest, guardedTask e w s' t' := by
    intro hn t' ht'
    rcases List.mem_append.mp ht' with h' | h'
    · exact hn t' h'
    · exact hrest t' h'
  cases hm with
  | callSkip v d r _ => exact ⟨hvis, hq, hnew (by simp)⟩
  | callParseFail v d r _ _ _ =>
    refine ⟨?_, ?_, hnew (by simp)⟩
    · intro u hu
      simp only [returnErr_visited, List.mem_append, List.mem_singleton] at hu
      rcases hu with hu | rfl
      · exact hvis u hu
      · cases r with
        | true => exact Or.inl (hthis.1 rfl)
        | false => exact Or.inr (Linked_mono w s _ _ gq (hthis.2 rfl))
    · intro q hq'
      simp only [returnErr_requests] at hq'
      simp only [returnErr_visited, List.mem_append]
      exact Or.inl (hq q hq')
  | callVisit v d r p _ _ hp =>
    refine ⟨?_, ?_, hnew ?_⟩
    · intro u hu
      simp only [List.mem_append, List.mem_singleton] at hu
      rcases hu with hu | rfl
      · exact hvis u hu
      · cases r with
        | true => exact Or.inl (hthis.1 rfl)
        | false => exact Or.inr (Linked_mono w s _ _ gq (hthis.2 rfl))
    · intro q hq'
      simp only [List.mem_append]
      exact Or.inl (hq q hq')
    · intro t' ht'
      simp only [List.mem_singleton] at ht'
      subst ht'
      exact ⟨hp, by simp⟩
  | headNo v p d r _ _ =>
    refine ⟨hvis, ?_, hnew (by simp)⟩
    intro q hq'
    simp only [List.mem_append, List.mem_singleton] at hq'
    rcases hq' with hq' | rfl
    · exact hq q hq'
    · exact hthis.2
  | headYes v p d r doc _ _ _ =>
    refine ⟨hvis, ?_, hnew ?_⟩
    · intro q hq'
      simp only [List.mem_append, List.mem_singleton] at hq'
      rcases hq' with hq' | rfl
      · exact hq q hq'
      · exact hthis.2
    · intro t' ht'
      simp only [List.mem_singleton] at ht'
      subst ht'
      trivial
  | getNo v p d r _ _ =>
    refine ⟨hvis, ?_, hnew (by simp)⟩
    intro q hq'
    simp only [List.mem_append, List.mem_singleton] at hq'
    rcases hq' with hq' | rfl
    · exact hq q hq'
    · exact hthis.2
  | getDocErr v p d r _ _ =>
    refine ⟨by simpa using hvis, ?_, hnew (by simp)⟩
    intro q hq'
    simp only [returnErr_requests, List.mem_append, List.mem_singleton] at hq'
    simp only [returnErr_visited]
    rcases hq' with hq' | rfl
    · exact hq q hq'
    · exact hthis.2
  | getPage v p d r hrefs _ ha =>
    refine ⟨hvis, ?_, hnew ?_⟩
    · intro q hq'
      simp only [List.mem_append, List.mem_singleton] at hq'
      rcases hq' with hq' | rfl
      · exact hq q hq'
      · exact hthis.2
    · intro t' ht'
      simp only [List.mem_singleton] at ht'
      subst ht'
      exact ⟨v, hrefs, by simp, hthis.1, ha, fun h hh => hh⟩
  | recordIt v => exact ⟨hvis, hq, hnew (by simp)⟩
  | scanDone p d => exact ⟨hvis, hq, hnew (by simp)⟩
  | scanSkip p d h hs _ =>
    refine ⟨hvis, hq, hnew ?_⟩
    intro t' ht'
    simp only [List.mem_singleton] at ht'
    subst ht'
    obtain ⟨page, hrefs, h1, h2, h3, h4⟩ := hthis
    exact ⟨page, hrefs, h1, h2, h3, fun h' hh => h4 h' (List.mem_cons_of_mem _ hh)⟩
  | scanSpawn p d h hs l hr hhost hc _ =>
    refine ⟨hvis, hq, hnew ?_⟩
    obtain ⟨page, hrefs, h1, h2, h3, h4⟩ := hthis
    intro t' ht'
    simp only [List.mem_cons, List.mem_singleton, List.not_mem_nil, or_false] at ht'
    rcases ht' with rfl | rfl
    · exact ⟨page, hrefs, h1, h2, h3, fun h' hh => h4 h' (List.mem_cons_of_mem _ hh)⟩
    · refine ⟨fun hf => (by cases hf), fun _ => ?_⟩
      exact ⟨page, p, hrefs, h, l, h1, h2, h3, h4 h (List.mem_cons_self _ _), hr, hhost, hc, rfl⟩

theorem Guarded_run (e : Engine) (w : Web) (schedule : List Nat) :
    Guarded e w (run e w (Crawl.start e) schedule).spider
      (run e w (Crawl.start e) schedule).tasks := by
  refine run_induction e w (Guarded e w) (Guarded_perm e w)
    (fun s t s' new rest => Guarded_move e w s s' t new rest) schedule _ ?_
  refine ⟨by simp [Crawl.start], by simp [Crawl.start], ?_⟩
  intro t ht
  simp only [Crawl.start, List.mem_singleton] at ht
  subst ht
  exact ⟨fun _ => rfl, fun h => (by cases h)⟩

/-- C8: an anchor whose `href` contains `..`, or whose resolved host differs
from the host of the directory URL, is skipped by the loop: no `discover`
call is spawned and the shared state is unchanged.  Along every schedule,
whatever URL is marked visited, requested, or handed to a spawned `discover`
call is the seed or is rendered by an anchor of a fetched page whose `href`
has no `..` and resolves to that page's host. -/
theorem link_guard (e : Engine) (w : Web) :
    (∀ (s : Spider) (p : URL) (d : Nat) (h : String) (hs : List String),
      (containsStr h ".." = true ∨ ∀ l, w.resolve p h = some l → l.Host ≠ p.Host) →
      discover e w s (.scan p d (h :: hs)) = (s, [.scan p d hs])) ∧
    (∀ schedule : List Nat,
      (∀ u ∈ (run e w (Crawl.start e) schedule).spider.visited,
        u = e.config.BaseURL ∨ Linked w (run e w (Crawl.start e) schedule).spider u) ∧
      (∀ q ∈ (run e w (Crawl.start e) schedule).spider.requests,
        q.2 = e.config.BaseURL ∨ Linked w (run e w (Crawl.start e) schedule).spider q.2) ∧
      (∀ u d, Task.call u d false ∈ (run e w (Crawl.start e) schedule).tasks →
        Linked w (run e w (Crawl.start e) schedule).spider u)) := by
  refine ⟨?_, fun schedule => ?_⟩
  · intro s p d h hs hbad
    simp only [discover]
    cases hr : w.resolve p h with
    | none => rfl
    | some l =>
      simp only []
      by_cases hh : l.Host ≠ p.Host
      · rw [if_pos hh]
      · rw [if_neg hh]
        rcases hbad with hc | hne
        · rw [if_pos hc]
        · exact absurd (hne l hr) hh
  · obtain ⟨hv, hq, ht⟩ := Guarded_run e w schedule
    exact ⟨hv, fun q hq' => hv q.2 (hq q hq'), fun u d hu => (ht _ hu).2 rfl⟩

theorem link_guard_witness :
    discover sampleEngine sampleWeb sampleSpider
        (.scan { Host := "x.test", text := "https://x.test/files/" } 0 ["../", "a.txt"]) =
      (sampleSpider, [.scan { Host := "x.test", text := "https://x.test/files/" } 0 ["a.txt"]]) :=
  (link_guard sampleEngine sampleWeb).1 sampleSpider
    { Host := "x.test", text := "https://x.test/files/" } 0 "../" ["a.txt"] (Or.inl rfl)

theorem Rooted_perm (e : Engine) (w : Web) (s : Spider) (ts ts' : List Task)
    (hp : ts.Perm ts') (h : Rooted e w s ts) : Rooted e w s ts' := by
  rcases h with ⟨h1, h2⟩ | ⟨p, h1, h2, h3, h4⟩ | ⟨h1, h2⟩
  · subst h1
    exact Or.inl ⟨(List.singleton_perm.mp hp).symm, h2⟩
  · subst h3
    exact Or.inr (Or.inl ⟨p, h1, h2, (List.singleton_perm.mp hp).symm, h4⟩)
  · exact Or.inr (Or.inr ⟨fun t ht => h1 t (hp.mem_iff.mpr ht), h2⟩)

theorem Rooted_move (e : Engine) (w : Web) (s s' : Spider) (t : Task)
    (new rest : List Task) (hm : Move e w s t s' new) (h : Rooted e w s (t :: rest)) :
    Rooted e w s' (new ++ rest) := by
  rcases h with ⟨h1, h2⟩ | ⟨p, h1, h2, h3, h4⟩ | ⟨h1, h2⟩
  · -- the root call takes its first step
    simp only [List.cons.injEq] at h1
    obtain ⟨rfl, rfl⟩ := h1
    subst h2
    cases hm with
    | callSkip _ _ _ hc =>
      refine Or.inr (Or.inr ⟨by simp, ?_⟩)
      rcases hc with hc | hc
      · have hc' : e.config.MaxDepth < 0 := by simpa using hc
        simp [rootVerdict, Crawl.start, hc']
      · simp [Crawl.start] at hc
    | callParseFail _ _ _ hd _ hp =>
      refine Or.inr (Or.inr ⟨by simp, ?_⟩)
      have : ¬ ((0 : Int) > e.config.MaxDepth) := by simpa using hd
      simp [rootVerdict, returnErr, hp, this]
    | callVisit _ _ _ p hd _ hp =>
      exact Or.inr (Or.inl ⟨p, hp, by simpa using hd, rfl, rfl⟩)
  · -- the root call requests the seed
    simp only [List.cons.injEq] at h3
    obtain ⟨rfl, rfl⟩ := h3
    have hd : ¬ ((0 : Int) > e.config.MaxDepth) := not_lt.mpr h2
    cases hm with
    | headNo _ _ _ _ hf _ =>
      exact Or.inr (Or.inr ⟨by simp, by simp [rootVerdict, hd, h1, hf, h4]⟩)
    | headYes _ _ _ _ doc hf _ _ =>
      exact Or.inr (Or.inr ⟨by simp [plainTask], by simp [rootVerdict, hd, h1, hf, h4]⟩)
    | getNo _ _ _ _ hf ha =>
      refine Or.inr (Or.inr ⟨by simp, ?_⟩)
      simp only [rootVerdict, hd, h1, hf, h4, if_false, Bool.false_eq_true]
      cases hans : w.answer .GET e.config.BaseURL with
      | failed err => rfl
      | response status doc =>
        cases doc with
        | some hrefs => rfl
        | none =>
          simp only []
          rw [if_neg]
          intro hst
          exact ha none (by rw [hans, hst])
    | getDocErr _ _ _ _ hf ha =>
      exact Or.inr (Or.inr ⟨by simp, by simp [rootVerdict, hd, h1, hf, ha, returnErr]⟩)
    | getPage _ _ _ _ hrefs hf ha =>
      exact Or.inr (Or.inr ⟨by simp [plainTask], by simp [rootVerdict, hd, h1, hf, ha, h4]⟩)
  · -- every task left is a goroutine's
    have hrest : ∀ t' ∈ rest, plainTask t' := fun t' h' => h1 t' (List.mem_cons_of_mem _ h')
    have hthis := h1 t (List.mem_cons_self _ _)
    refine Or.inr (Or.inr ?_)
    cases hm with
    | callSkip v d r _ => exact ⟨by simpa using hrest, h2⟩
    | callParseFail v d r _ _ _ =>
      have hr : r = false := hthis
      subst hr
      exact ⟨by simpa using hrest, h2⟩
    | callVisit v d r p _ _ _ =>
      have hr : r = false := hthis
      subst hr
      refine ⟨?_, h2⟩
      intro t' ht'
      simp only [List.cons_append, List.nil_append, List.mem_cons] at ht'
      rcases ht' with rfl | ht'
      · exact rfl
      · exact hrest t' ht'
    | headNo v p d r _ _ => exact ⟨by simpa using hrest, h2⟩
    | headYes v p d r doc _ _ _ =>
      refine ⟨?_, h2⟩
      intro t' ht'
      simp only [List.cons_append, List.nil_append, List.mem_cons] at ht'
      rcases ht' with rfl | ht'
      · trivial
      · exact hrest t' ht'
    | getNo v p d r _ _ => exact ⟨by simpa using hrest, h2⟩
    | getDocErr v p d r _ _ =>
      have hr : r = false := hthis
      subst hr
      exact ⟨by simpa using hrest, h2⟩
    | getPage v p d r hrefs _ _ =>
      refine ⟨?_, h2⟩
      intro t' ht'
      simp only [List.cons_append, List.nil_append, List.mem_cons] at ht'
      rcases ht' with rfl | ht'
      · trivial
      · exact hrest t' ht'
    | recordIt v => exact ⟨by simpa using hrest, h2⟩
    | scanDone p d => exact ⟨by simpa using hrest, h2⟩
    | scanSkip p d h hs _ =>
      refine ⟨?_, h2⟩
      intro t' ht'
      simp only [List.cons_append, List.nil_append, List.mem_cons] at ht'
      rcases ht' with rfl | ht'
      · trivial
      · exact hrest t' ht'
    | scanSpawn p d h hs l _ _ _ _ =>
      refine ⟨?_, h2⟩
      intro t' ht'
      simp only [List.cons_append, List.nil_append, List.mem_cons] at ht'
      rcases ht' with rfl | rfl | ht'
      · trivial
      · exact rfl
      · exact hrest t' ht'

theorem Rooted_run (e : Engine) (w : Web) (schedule : List Nat) :
    Rooted e w (run e w (Crawl.start e) schedule).spider
      (run e w (Crawl.start e) schedule).tasks :=
  run_induction e w (Rooted e w) (Rooted_perm e w)
    (fun s t s' new rest => Rooted_move e w s s' t new rest) schedule _ (Or.inl ⟨rfl, rfl⟩)

/-- What a completed run returns: the root verdict as the error, else the
sorted discovered list. -/
theorem DiscoverStructure_result (e : Engine) (w : Web) (schedule : List Nat)
    (result : Except GoError (List String))
    (h : DiscoverStructure e w schedule = some result) :
    result = (match rootVerdict e w with
              | some err => .error err
              | none => .ok (sortStrings (run e w (Crawl.start e) schedule).spider.discovered)) := by
  obtain ⟨ht, hr⟩ := DiscoverStructure_some e w schedule result h
  rcases Rooted_run e w schedule with ⟨h1, _⟩ | ⟨p, _, _, h3, _⟩ | ⟨_, h2⟩
  · rw [ht] at h1; cases h1
  · rw [ht] at h3; cases h3
  · rw [hr]
    unfold Spider.result
    rw [h2]

theorem lexLE_total : ∀ a b : List Char, lexLE a b = true ∨ lexLE b a = true
  | [], _ => Or.inl rfl
  | _ :: _, [] => Or.inr rfl
  | a :: as, b :: bs => by
    simp only [lexLE, Bool.or_eq_true, Bool.and_eq_true, decide_eq_true_eq]
    rcases Nat.lt_trichotomy a.toNat b.toNat with h | h | h
    · exact Or.inl (Or.inl h)
    · rcases lexLE_total as bs with h' | h'
      · exact Or.inl (Or.inr ⟨h, h'⟩)
      · exact Or.inr (Or.inr ⟨h.symm, h'⟩)
    · exact Or.inr (Or.inl h)

theorem lexLE_trans : ∀ a b c : List Char, lexLE a b = true → lexLE b c = true →
    lexLE a c = true
  | [], _, _, _, _ => rfl
  | _ :: _, [], _, h, _ => by simp [lexLE] at h
  | _ :: _, _ :: _, [], _, h => by simp [lexLE] at h
  | a :: as, b :: bs, c :: cs, h1, h2 => by
    simp only [lexLE, Bool.or_eq_true, Bool.and_eq_true, decide_eq_true_eq] at h1 h2 ⊢
    rcases h1 with h1 | ⟨h1, h1'⟩ <;> rcases h2 with h2 | ⟨h2, h2'⟩
    · exact Or.inl (by omega)
    · exact Or.inl (by omega)
    · exact Or.inl (by omega)
    · exact Or.inr ⟨by omega, lexLE_trans as bs cs h1' h2'⟩

theorem char_toNat_inj (a b : Char) (h : a.toNat = b.toNat) : a = b := by
  apply Char.ext
  apply UInt32.ext
  exact h

theorem lexLE_antisymm : ∀ a b : List Char, lexLE a b = true → lexLE b a = true → a = b
  | [], [], _, _ => rfl
  | [], _ :: _, _, h => by simp [lexLE] at h
  | _ :: _, [], h, _ => by simp [lexLE] at h
  | a :: as, b :: bs, h1, h2 => by
    simp only [lexLE, Bool.or_eq_true, Bool.and_eq_true, decide_eq_true_eq] at h1 h2
    rcases h1 with h1 | ⟨h1, h1'⟩ <;> rcases h2 with h2 | ⟨h2, h2'⟩
    · omega
    · omega
    · omega
    · rw [char_toNat_inj a b h1, lexLE_antisymm as bs h1' h2']

instance : IsTotal String stringLE := ⟨fun a b => lexLE_total a.data b.data⟩

instance : IsTrans String stringLE := ⟨fun a b c => lexLE_trans a.data b.data c.data⟩

instance : IsAntisymm String stringLE :=
  ⟨fun a b h1 h2 => String.ext (lexLE_antisymm a.data b.data h1 h2)⟩

theorem sortStrings_sorted (l : List String) : List.Sorted stringLE (sortStrings l) :=
  List.sorted_insertionSort stringLE l

theorem sortStrings_perm (l : List String) : (sortStrings l).Perm l :=
  List.perm_insertionSort stringLE l

theorem rootVerdict_ne_none (e : Engine) (w : Web) :
    (∃ err, rootVerdict e w = some err) ↔
      ((0 : Int) ≤ e.config.MaxDepth ∧
        (w.parse e.config.BaseURL = none ∨
          (isFile e.config.BaseURL = false ∧
            w.answer .GET e.config.BaseURL = .response 200 none))) := by
  unfold rootVerdict
  by_cases hd : (0 : Int) > e.config.MaxDepth
  · rw [if_pos hd]
    constructor
    · rintro ⟨err, h⟩; cases h
    · rintro ⟨h, -⟩; omega
  · rw [if_neg hd]
    have hd' : (0 : Int) ≤ e.config.MaxDepth := not_lt.mp hd
    cases hp : w.parse e.config.BaseURL with
    | none => simp [hd']
    | some p =>
      cases hf : isFile e.config.BaseURL with
      | true => simp
      | false =>
        cases ha : w.answer .GET e.config.BaseURL with
        | failed err => simp
        | response status doc =>
          cases doc with
          | some hrefs => simp
          | none =>
            by_cases hs : status = 200
            · simp [hs, hd']
            · simp [hs]

/-- C9, as amended: a completed run of `DiscoverStructure` returns an error
exactly when `MaxDepth ≥ 0` and either `url.Parse` fails on the seed or the
seed is a directory answered with status 200 and a body from which no
document can be built; in every other case, a failed or cancelled
`makeRequest` included, it returns the discovered list, sorted, and no error;
some schedule completes the run. -/
theorem discovery_failure_semantics (e : Engine) (w : Web) :
    (∀ (schedule : List Nat) (result : Except GoError (List String)),
      DiscoverStructure e w schedule = some result →
      ((∃ err, result = .error err) ↔
        ((0 : Int) ≤ e.config.MaxDepth ∧
          (w.parse e.config.BaseURL = none ∨
            (isFile e.config.BaseURL = false ∧
              w.answer .GET e.config.BaseURL = .response 200 none)))) ∧
      (∀ urls, result = .ok urls →
        urls = sortStrings (run e w (Crawl.start e) schedule).spider.discovered ∧
        List.Sorted stringLE urls)) ∧
    (∃ schedule result, DiscoverStructure e w schedule = some result) := by
  refine ⟨fun schedule result h => ?_, DiscoverStructure_returns e w⟩
  have hr := DiscoverStructure_result e w schedule result h
  rw [← rootVerdict_ne_none]
  cases hv : rootVerdict e w with
  | none =>
    rw [hv] at hr
    subst hr
    refine ⟨⟨fun ⟨err, h⟩ => (by cases h), fun ⟨err, h⟩ => (by cases h)⟩, ?_⟩
    intro urls hu
    cases hu
    exact ⟨rfl, sortStrings_sorted _⟩
  | some err =>
    rw [hv] at hr
    subst hr
    refine ⟨⟨fun _ => ⟨err, rfl⟩, fun _ => ⟨err, rfl⟩⟩, ?_⟩
    intro urls hu
    cases hu

theorem discovery_failure_semantics_witness :
    ∃ schedule result, DiscoverStructure sampleEngine cancelledWeb schedule = some result :=
  (discovery_failure_semantics sampleEngine cancelledWeb).2

/-- C9, as stated, fails in both directions: a run in which no `makeRequest`
call fails, and so no cancellation surfaces, returns an error when the seed
page cannot be parsed; and a run in which every `makeRequest` call returns
the cancelled context's error returns the empty list and no error. -/
theorem discovery_failure_semantics_counterexample :
    DiscoverStructure sampleEngine brokenPageWeb [0, 0] = some (.error .documentErr) ∧
    DiscoverStructure sampleEngine cancelledWeb [0, 0] = some (.ok []) :=
  ⟨rfl, rfl⟩

theorem headFound_iff (w : Web) (u : String) :
    headFound w u = true ↔ ∃ doc, w.answer .HEAD u = .response 200 doc := by
  unfold headFound
  cases h : w.answer .HEAD u with
  | failed err => simp
  | response status doc =>
    simp only [decide_eq_true_eq]
    constructor
    · intro hs; exact ⟨doc, by rw [hs]⟩
    · rintro ⟨doc', hd⟩; cases hd; rfl

theorem mem_depthOneFiles (e : Engine) (w : Web) (P : URL) (hrefs : List String) (u : String) :
    u ∈ depthOneFiles e w P hrefs ↔ Qualifies e w P hrefs u := by
  unfold depthOneFiles
  rw [(sortStrings_perm _).mem_iff, List.mem_dedup, List.mem_filterMap]
  unfold Qualifies GoodLink isFile
  constructor
  · rintro ⟨h, hh, hm⟩
    cases hr : w.resolve P h with
    | none => rw [hr] at hm; cases hm
    | some l =>
      rw [hr] at hm
      simp only [] at hm
      split at hm
      · rename_i hc
        cases hm
        obtain ⟨h1, h2, h3, h4, h5⟩ := hc
        exact ⟨⟨h, hh, l, hr, h1, h2, rfl⟩, by simp [h3], (headFound_iff w _).mp h4, h5⟩
      · cases hm
  · rintro ⟨⟨h, hh, l, hr, h1, h2, rfl⟩, h3, h4, h5⟩
    refine ⟨h, hh, ?_⟩
    rw [hr]
    simp only []
    rw [if_pos ⟨h1, h2, by simpa using h3, (headFound_iff w _).mpr h4, h5⟩]

theorem depthOneFiles_sorted (e : Engine) (w : Web) (P : URL) (hrefs : List String) :
    List.Sorted stringLE (depthOneFiles e w P hrefs) :=
  sortStrings_sorted _

theorem depthOneFiles_nodup (e : Engine) (w : Web) (P : URL) (hrefs : List String) :
    (depthOneFiles e w P hrefs).Nodup :=
  (sortStrings_perm _).nodup_iff.mpr (List.nodup_dedup _)

/-- A duplicate-free list with the members of the scenario's list sorts to it. -/
theorem sortStrings_eq_depthOneFiles (e : Engine) (w : Web) (P : URL) (hrefs : List String)
    (l : List String) (hn : l.Nodup) (hm : ∀ u, u ∈ l ↔ Qualifies e w P hrefs u) :
    sortStrings l = depthOneFiles e w P hrefs := by
  apply List.eq_of_perm_of_sorted (r := stringLE) _ (sortStrings_sorted l)
    (depthOneFiles_sorted e w P hrefs)
  refine (sortStrings_perm l).trans ?_
  rw [List.perm_ext_iff_of_nodup hn (depthOneFiles_nodup e w P hrefs)]
  intro u
  rw [hm, mem_depthOneFiles]

theorem DepthOne_perm (e : Engine) (w : Web) (P : URL) (hrefs : List String) (s : Spider)
    (ts ts' : List Task) (hp : ts.Perm ts') (h : DepthOne e w P hrefs s ts) :
    DepthOne e w P hrefs s ts' := by
  obtain ⟨h1, h2, h3, h4⟩ := h
  refine ⟨fun hm => ?_, h2, fun t ht => h3 t (hp.mem_iff.mpr ht), fun u hu => ?_⟩
  · obtain ⟨hv, hts⟩ := h1 (hp.mem_iff.mpr hm)
    subst hts
    exact ⟨hv, (List.singleton_perm.mp hp).symm⟩
  · obtain ⟨a, v, c⟩ := h4 u hu
    refine ⟨?_, fun hv => ?_, fun hr => ?_⟩
    · rcases a with a | a | ⟨hs, a, a'⟩ | a | a
      · exact Or.inl (hp.mem_iff.mp a)
      · exact Or.inr (Or.inl (hp.mem_iff.mp a))
      · exact Or.inr (Or.inr (Or.inl ⟨hs, hp.mem_iff.mp a, a'⟩))
      · exact Or.inr (Or.inr (Or.inr (Or.inl (hp.mem_iff.mp a))))
      · exact Or.inr (Or.inr (Or.inr (Or.inr a)))
    · rcases v hv with ⟨p, d, r, hf⟩ | hreq
      · exact Or.inl ⟨p, d, r, hp.mem_iff.mp hf⟩
      · exact Or.inr hreq
    · rcases c hr with hrec | hdisc
      · exact Or.inl (hp.mem_iff.mp hrec)
      · exact Or.inr hdisc

theorem Move_new_plain (e : Engine) (w : Web) (s s' : Spider) (t : Task) (new : List Task)
    (hm : Move e w s t s' new) (u : String) (d : Nat) : Task.call u d true ∉ new := by
  cases hm <;> simp

theorem Move_discovered (e : Engine) (w : Web) (s s' : Spider) (t : Task) (new : List Task)
    (hm : Move e w s t s' new) : ∀ u ∈ s.discovered, u ∈ s'.discovered := by
  cases hm <;> simp_all

/-- The tasks a step creates keep the depth-one shape. -/
theorem okTask_new (e : Engine) (w : Web) (P : URL) (hrefs : List String)
    (hset : DepthOneSetting e w P hrefs) (s s' : Spider) (t : Task) (new : List Task)
    (hm : Move e w s t s' new) (ht : okTask e w P hrefs t) :
    ∀ t' ∈ new, okTask e w P hrefs t' := by
  obtain ⟨hD, hdir, hparse, hpage, -⟩ := hset
  cases hm with
  | callSkip v d r _ => simp
  | callParseFail v d r _ _ _ => simp
  | callVisit v d r p hd _ hp =>
    intro t' ht'
    simp only [List.mem_singleton] at ht'
    subst ht'
    rw [hD] at hd
    refine ⟨fun hr => ?_, fun hr => ?_⟩
    · obtain ⟨rfl, rfl⟩ := ht.1 hr
      rw [hparse] at hp
      cases hp
      exact ⟨rfl, rfl, rfl⟩
    · rcases ht.2 hr with ⟨h1, h2⟩ | h
      · exact ⟨h1, h2⟩
      · omega
  | headNo v p d r _ _ => simp
  | headYes v p d r doc hf ha hacc =>
    intro t' ht'
    simp only [List.mem_singleton] at ht'
    subst ht'
    cases r with
    | true =>
      obtain ⟨rfl, -, -⟩ := ht.1 rfl
      rw [hdir] at hf
      cases hf
    | false => exact ⟨(ht.2 rfl).2, hf, ⟨doc, ha⟩, hacc⟩
  | getNo v p d r _ _ => simp
  | getDocErr v p d r _ _ => simp
  | getPage v p d r hrefs' hf ha =>
    intro t' ht'
    simp only [List.mem_singleton] at ht'
    subst ht'
    intro hd0
    cases r with
    | true =>
      obtain ⟨rfl, -, rfl⟩ := ht.1 rfl
      rw [hpage] at ha
      cases ha
      exact ⟨rfl, fun h hh => hh⟩
    | false =>
      have := (ht.2 rfl).1
      omega
  | recordIt v => simp
  | scanDone p d => simp
  | scanSkip p d h hs _ =>
    intro t' ht'
    simp only [List.mem_singleton] at ht'
    subst ht'
    intro hd0
    obtain ⟨h1, h2⟩ := ht hd0
    exact ⟨h1, fun h' hh => h2 h' (List.mem_cons_of_mem _ hh)⟩
  | scanSpawn p d h hs l hr hhost hc _ =>
    intro t' ht'
    simp only [List.mem_cons, List.mem_singleton, List.not_mem_nil, or_false] at ht'
    rcases ht' with rfl | rfl
    · intro hd0
      obtain ⟨h1, h2⟩ := ht hd0
      exact ⟨h1, fun h' hh => h2 h' (List.mem_cons_of_mem _ hh)⟩
    · refine ⟨fun hf => (by cases hf), fun _ => ?_⟩
      by_cases hd0 : d = 0
      · subst hd0
        obtain ⟨rfl, h2⟩ := ht rfl
        exact Or.inl ⟨rfl, h, h2 h (List.mem_cons_self _ _), l, hr, hhost, hc, rfl⟩
      · exact Or.inr (by omega)

theorem Pending_move (e : Engine) (w : Web) (P : URL) (hrefs : List String)
    (hset : DepthOneSetting e w P hrefs) (s s' : Spider) (t : Task) (new rest : List Task)
    (hm : Move e w s t s' new)
    (hrc : Task.call e.config.BaseURL 0 true ∈ t :: rest →
      s.visited = [] ∧ t :: rest = [Task.call e.config.BaseURL 0 true])
    (u : String) (hq : Qualifies e w P hrefs u) (h : Pending e w P s (t :: rest) u) :
    Pending e w P s' (new ++ rest) u := by
  obtain ⟨hD, hdir, hparse, hpage, -⟩ := hset
  obtain ⟨-, gv⟩ := Move_grows e w s s' t new hm
  rcases h with a | a | ⟨hs, a, h', hh', good⟩ | a | a
  · -- the root call
    have hvis := (hrc a).1
    rcases List.mem_cons.mp a with rfl | a
    · cases hm with
      | callSkip _ _ _ hc =>
        rcases hc with hc | hc
        · rw [hD] at hc; simp at hc
        · rw [hvis] at hc; cases hc
      | callParseFail _ _ _ _ _ hp => rw [hparse] at hp; cases hp
      | callVisit _ _ _ p _ _ hp =>
        rw [hparse] at hp
        cases hp
        exact Or.inr (Or.inl (by simp))
    · exact Or.inl (List.mem_append_right _ a)
  · -- the root request
    rcases List.mem_cons.mp a with rfl | a
    · cases hm with
      | headNo _ _ _ _ hf _ => rw [hdir] at hf; cases hf
      | headYes _ _ _ _ _ hf _ _ => rw [hdir] at hf; cases hf
      | getNo _ _ _ _ _ hno => exact absurd hpage (hno _)
      | getDocErr _ _ _ _ _ ha => rw [hpage] at ha; cases ha
      | getPage _ _ _ _ hrefs' _ ha =>
        rw [hpage] at ha
        cases ha
        exact Or.inr (Or.inr (Or.inl ⟨hrefs, by simp, hq.1⟩))
    · exact Or.inr (Or.inl (List.mem_append_right _ a))
  · -- the loop over the seed page
    rcases List.mem_cons.mp a with rfl | a
    · cases hm with
      | scanDone _ _ => cases hh'
      | scanSkip _ _ h hs0 hskip =>
        rcases List.mem_cons.mp hh' with rfl | hh'
        · obtain ⟨l, hr, hhost, hc, rfl⟩ := good
          refine Or.inr (Or.inr (Or.inr (Or.inr ?_)))
          by_contra hn
          exact hskip ⟨l, hr, hhost, hc, hn⟩
        · exact Or.inr (Or.inr (Or.inl ⟨hs0, by simp, h', hh', good⟩))
      | scanSpawn _ _ h hs0 l hr _ _ _ =>
        rcases List.mem_cons.mp hh' with rfl | hh'
        · obtain ⟨l', hr', -, -, rfl⟩ := good
          rw [hr] at hr'
          cases hr'
          exact Or.inr (Or.inr (Or.inr (Or.inl (by simp))))
        · exact Or.inr (Or.inr (Or.inl ⟨hs0, by simp, h', hh', good⟩))
    · exact Or.inr (Or.inr (Or.inl ⟨hs, List.mem_append_right _ a, h', hh', good⟩))
  · -- the call for `u`
    rcases List.mem_cons.mp a with rfl | a
    · refine Or.inr (Or.inr (Or.inr (Or.inr ?_)))
      cases hm with
      | callSkip _ _ _ hc =>
        rcases hc with hc | hc
        · rw [hD] at hc; simp at hc
        · exact hc
      | callParseFail _ _ _ _ _ _ => simp
      | callVisit _ _ _ p _ _ _ => simp
    · exact Or.inr (Or.inr (Or.inr (Or.inl (List.mem_append_right _ a))))
  · exact Or.inr (Or.inr (Or.inr (Or.inr (gv u a))))

theorem Visited_move (e : Engine) (w : Web) (P : URL) (hrefs : List String)
    (hset : DepthOneSetting e w P hrefs) (s s' : Spider) (t : Task) (new rest : List Task)
    (hm : Move e w s t s' new) (u : String) (hq : Qualifies e w P hrefs u)
    (h : u ∈ s.visited →
      (∃ p d r, Task.fetch u p d r ∈ t :: rest) ∨ (∃ m, (m, u) ∈ s.requests))
    (hv : u ∈ s'.visited) :
    (∃ p d r, Task.fetch u p d r ∈ new ++ rest) ∨ (∃ m, (m, u) ∈ s'.requests) := by
  obtain ⟨gq, -⟩ := Move_grows e w s s' t new hm
  -- what the old state gives once `u` was visited before the step
  have old : u ∈ s.visited →
      (∃ p d r, t = Task.fetch u p d r) ∨ (∃ p d r, Task.fetch u p d r ∈ new ++ rest) ∨
        (∃ m, (m, u) ∈ s'.requests) := by
    intro hu
    rcases h hu with ⟨p, d, r, hf⟩ | ⟨m, hreq⟩
    · rcases List.mem_cons.mp hf with hf | hf
      · exact Or.inl ⟨p, d, r, hf.symm⟩
      · exact Or.inr (Or.inl ⟨p, d, r, List.mem_append_right _ hf⟩)
    · exact Or.inr (Or.inr ⟨m, gq _ hreq⟩)
  cases hm with
  | callSkip v d r _ =>
    rcases old hv with ⟨_, _, _, h⟩ | h
    · cases h
    · exact h
  | callParseFail v d r _ _ hp =>
    simp only [returnErr_visited, List.mem_append, List.mem_singleton] at hv
    rcases hv with hv | rfl
    · rcases old hv with ⟨_, _, _, h⟩ | h
      · cases h
      · exact h
    · exact absurd hp (hset.2.2.2.2 u hq)
  | callVisit v d r p _ _ _ =>
    simp only [List.mem_append, List.mem_singleton] at hv
    rcases hv with hv | rfl
    · rcases old hv with ⟨_, _, _, h⟩ | h
      · cases h
      · exact h
    · exact Or.inl ⟨p, d, r, by simp⟩
  | headNo v p d r _ _ =>
    rcases old hv with ⟨_, _, _, h⟩ | h
    · cases h
      exact Or.inr ⟨.HEAD, by simp⟩
    · exact h
  | headYes v p d r doc _ _ _ =>
    rcases old hv with ⟨_, _, _, h⟩ | h
    · cases h
      exact Or.inr ⟨.HEAD, by simp⟩
    · exact h
  | getNo v p d r _ _ =>
    rcases old hv with ⟨_, _, _, h⟩ | h
    · cases h
      exact Or.inr ⟨.GET, by simp⟩
    · exact h
  | getDocErr v p d r _ _ =>
    simp only [returnErr_visited] at hv
    rcases old hv with ⟨_, _, _, h⟩ | h
    · cases h
      exact Or.inr ⟨.GET, by simp⟩
    · exact h
  | getPage v p d r hrefs' _ _ =>
    rcases old hv with ⟨_, _, _, h⟩ | h
    · cases h
      exact Or.inr ⟨.GET, by simp⟩
    · exact h
  | recordIt v =>
    rcases old hv with ⟨_, _, _, h⟩ | h
    · cases h
    · exact h
  | scanDone p d =>
    rcases old hv with ⟨_, _, _, h⟩ | h
    · cases h
    · exact h
  | scanSkip p d h0 hs _ =>
    rcases old hv with ⟨_, _, _, h⟩ | h
    · cases h
    · exact h
  | scanSpawn p d h0 hs l _ _ _ _ =>
    rcases old hv with ⟨_, _, _, h⟩ | h
    · cases h
    · exact h

theorem Requested_move (e : Engine) (w : Web) (P : URL) (hrefs : List String)
    (s s' : Spider) (t : Task) (new rest : List Task)
    (hm : Move e w s t s' new) (u : String) (hq : Qualifies e w P hrefs u)
    (h : (∃ m, (m, u) ∈ s.requests) → Task.record u ∈ t :: rest ∨ u ∈ s.discovered)
    (hr : ∃ m, (m, u) ∈ s'.requests) :
    Task.record u ∈ new ++ rest ∨ u ∈ s'.discovered := by
  have gd := Move_discovered e w s s' t new hm
  have old : (∃ m, (m, u) ∈ s.requests) →
      t = Task.record u ∨ Task.record u ∈ new ++ rest ∨ u ∈ s'.discovered := by
    intro hu
    rcases h hu with hf | hd
    · rcases List.mem_cons.mp hf with hf | hf
      · exact Or.inl hf.symm
      · exact Or.inr (Or.inl (List.mem_append_right _ hf))
    · exact Or.inr (Or.inr (gd u hd))
  obtain ⟨m, hr⟩ := hr
  cases hm with
  | callSkip v d r _ =>
    rcases old ⟨m, hr⟩ with h | h
    · cases h
    · exact h
  | callParseFail v d r _ _ _ =>
    simp only [returnErr_requests] at hr
    rcases old ⟨m, hr⟩ with h | h
    · cases h
    · exact h
  | callVisit v d r p _ _ _ =>
    rcases old ⟨m, hr⟩ with h | h
    · cases h
    · exact h
  | headNo v p d r _ hno =>
    simp only [List.mem_append, List.mem_singleton, Prod.mk.injEq] at hr
    rcases hr with hr | ⟨-, rfl⟩
    · rcases old ⟨m, hr⟩ with h | h
      · cases h
      · exact h
    · obtain ⟨doc, hd⟩ := hq.2.2.1
      exact absurd ⟨doc, hd, hq.2.2.2⟩ hno
  | headYes v p d r doc _ _ _ =>
    simp only [List.mem_append, List.mem_singleton, Prod.mk.injEq] at hr
    rcases hr with hr | ⟨-, rfl⟩
    · rcases old ⟨m, hr⟩ with h | h
      · cases h
      · exact h
    · exact Or.inl (by simp)
  | getNo v p d r hf _ =>
    simp only [List.mem_append, List.mem_singleton, Prod.mk.injEq] at hr
    rcases hr with hr | ⟨-, rfl⟩
    · rcases old ⟨m, hr⟩ with h | h
      · cases h
      · exact h
    · rw [hq.2.1] at hf; cases hf
  | getDocErr v p d r hf _ =>
    simp only [returnErr_requests, List.mem_append, List.mem_singleton, Prod.mk.injEq] at hr
    rcases hr with hr | ⟨-, rfl⟩
    · rcases old ⟨m, hr⟩ with h | h
      · cases h
      · exact h
    · rw [hq.2.1] at hf; cases hf
  | getPage v p d r hrefs' hf _ =>
    simp only [List.mem_append, List.mem_singleton, Prod.mk.injEq] at hr
    rcases hr with hr | ⟨-, rfl⟩
    · rcases old ⟨m, hr⟩ with h | h
      · cases h
      · exact h
    · rw [hq.2.1] at hf; cases hf
  | recordIt v =>
    rcases old ⟨m, hr⟩ with h | h
    · cases h
      exact Or.inr (by simp)
    · exact h
  | scanDone p d =>
    rcases old ⟨m, hr⟩ with h | h
    · cases h
    · exact h
  | scanSkip p d h0 hs _ =>
    rcases old ⟨m, hr⟩ with h | h
    · cases h
    · exact h
  | scanSpawn p d h0 hs l _ _ _ _ =>
    rcases old ⟨m, hr⟩ with h | h
    · cases h
    · exact h

theorem DepthOne_move (e : Engine) (w : Web) (P : URL) (hrefs : List String)
    (hset : DepthOneSetting e w P hrefs) (s s' : Spider) (t : Task) (new rest : List Task)
    (hm : Move e w s t s' new) (h : DepthOne e w P hrefs s (t :: rest)) :
    DepthOne e w P hrefs s' (new ++ rest) := by
  obtain ⟨h1, h2, h3, h4⟩ := h
  refine ⟨fun hroot => ?_, fun u hu => ?_, fun t' ht' => ?_, fun u hq => ?_⟩
  · -- the root call never comes back
    rcases List.mem_append.mp hroot with hn | hr
    · exact absurd hn (Move_new_plain e w s s' t new hm _ _)
    · have := (h1 (List.mem_cons_of_mem _ hr)).2
      simp only [List.cons.injEq] at this
      rw [this.2] at hr
      cases hr
  · -- what is listed qualifies
    cases hm with
    | recordIt v =>
      simp only [List.mem_append, List.mem_singleton] at hu
      rcases hu with hu | rfl
      · exact h2 u hu
      · exact h3 _ (List.mem_cons_self _ _)
    | callParseFail v d r _ _ _ => exact h2 u (by simpa using hu)
    | getDocErr v p d r _ _ => exact h2 u (by simpa using hu)
    | callSkip v d r _ => exact h2 u hu
    | callVisit v d r p _ _ _ => exact h2 u hu
    | headNo v p d r _ _ => exact h2 u hu
    | headYes v p d r doc _ _ _ => exact h2 u hu
    | getNo v p d r _ _ => exact h2 u hu
    | getPage v p d r hrefs' _ _ => exact h2 u hu
    | scanDone p d => exact h2 u hu
    | scanSkip p d h0 hs _ => exact h2 u hu
    | scanSpawn p d h0 hs l _ _ _ _ => exact h2 u hu
  · rcases List.mem_append.mp ht' with hn | hr
    · exact okTask_new e w P hrefs hset s s' t new hm (h3 t (List.mem_cons_self _ _)) t' hn
    · exact h3 t' (List.mem_cons_of_mem _ hr)
  · obtain ⟨a, v, c⟩ := h4 u hq
    exact ⟨Pending_move e w P hrefs hset s s' t new rest hm h1 u hq a,
      Visited_move e w P hrefs hset s s' t new rest hm u hq v,
      Requested_move e w P hrefs s s' t new rest hm u hq c⟩

theorem DepthOne_run (e : Engine) (w : Web) (P : URL) (hrefs : List String)
    (hset : DepthOneSetting e w P hrefs) (schedule : List Nat) :
    DepthOne e w P hrefs (run e w (Crawl.start e) schedule).spider
      (run e w (Crawl.start e) schedule).tasks := by
  refine run_induction e w (DepthOne e w P hrefs) (DepthOne_perm e w P hrefs)
    (fun s t s' new rest => DepthOne_move e w P hrefs hset s s' t new rest) schedule _ ?_
  refine ⟨fun _ => ⟨rfl, rfl⟩, by simp [Crawl.start], ?_, fun u _ => ?_⟩
  · intro t ht
    simp only [Crawl.start, List.mem_singleton] at ht
    subst ht
    exact ⟨fun _ => ⟨rfl, rfl⟩, fun h => (by cases h)⟩
  · exact ⟨Or.inl (by simp [Crawl.start]), by simp [Crawl.start], by simp [Crawl.start]⟩

theorem rootVerdict_depthOne (e : Engine) (w : Web) (P : URL) (hrefs : List String)
    (hset : DepthOneSetting e w P hrefs) : rootVerdict e w = none := by
  obtain ⟨hD, hdir, hparse, hpage, -⟩ := hset
  simp [rootVerdict, hD, hparse, hdir, hpage]

theorem nodup_of_listed (s : Spider) (h : ∀ u, s.listed u ≤ 1) : s.discovered.Nodup :=
  List.nodup_iff_count_le_one.mpr h

/-- What a completed run with depth bound 1 returns. -/
theorem DiscoverStructure_depthOne (e : Engine) (w : Web) (P : URL) (hrefs : List String)
    (hset : DepthOneSetting e w P hrefs) (schedule : List Nat)
    (result : Except GoError (List String))
    (h : DiscoverStructure e w schedule = some result) :
    result = .ok (depthOneFiles e w P hrefs) := by
  have hr := DiscoverStructure_result e w schedule result h
  rw [rootVerdict_depthOne e w P hrefs hset] at hr
  obtain ⟨ht, -⟩ := DiscoverStructure_some e w schedule result h
  obtain ⟨-, h2, -, h4⟩ := DepthOne_run e w P hrefs hset schedule
  rw [hr]
  simp only []
  congr 1
  apply sortStrings_eq_depthOneFiles
  · apply nodup_of_listed
    intro u
    have := (run_once e w (Crawl.start e) schedule u).2
    simpa [Crawl.start, fetching, recording, Spider.listed] using this
  · intro u
    refine ⟨h2 u, fun hq => ?_⟩
    obtain ⟨a, v, c⟩ := h4 u hq
    rw [ht] at a v c
    have hv : u ∈ (run e w (Crawl.start e) schedule).spider.visited := by
      rcases a with a | a | ⟨_, a, _⟩ | a | a
      · cases a
      · cases a
      · cases a
      · cases a
      · exact a
    have hreq : ∃ m, (m, u) ∈ (run e w (Crawl.start e) schedule).spider.requests := by
      rcases v hv with ⟨_, _, _, hf⟩ | hreq
      · cases hf
      · exact hreq
    rcases c hreq with hrec | hd
    · cases hrec
    · exact hd

/-- C1: with depth bound 1 and a seed directory URL (ending in `/`) that
parses and is answered with status 200 and a page that parses, every
completed run of `DiscoverStructure`, along every schedule, returns no error
and exactly the scenario's list: the links of the seed page that resolve to the
seed's host from an `href` without `..`, do not end in `/`, answer HEAD with
status 200 and pass `shouldAcceptURL`, sorted and without duplicates; and some
schedule completes the run.  `url.Parse` is taken to accept the rendering of
every listed link. -/
theorem depth_one_result (e : Engine) (w : Web) (P : URL) (hrefs : List String)
    (hdepth : e.config.MaxDepth = 1)
    (hdir : hasSuffix e.config.BaseURL "/" = true)
    (hparse : w.parse e.config.BaseURL = some P)
    (hpage : w.answer .GET e.config.BaseURL = .response 200 (some hrefs))
    (hrender : ∀ u, Qualifies e w P hrefs u → w.parse u ≠ none) :
    (∀ (schedule : List Nat) (result : Except GoError (List String)),
      DiscoverStructure e w schedule = some result →
      result = .ok (depthOneFiles e w P hrefs)) ∧
    (∃ schedule, DiscoverStructure e w schedule = some (.ok (depthOneFiles e w P hrefs))) ∧
    List.Sorted stringLE (depthOneFiles e w P hrefs) ∧
    (depthOneFiles e w P hrefs).Nodup ∧
    (∀ u, u ∈ depthOneFiles e w P hrefs ↔ Qualifies e w P hrefs u) := by
  have hset : DepthOneSetting e w P hrefs :=
    ⟨hdepth, by simp [isFile, hdir], hparse, hpage, hrender⟩
  refine ⟨fun schedule result h => DiscoverStructure_depthOne e w P hrefs hset schedule result h,
    ?_, depthOneFiles_sorted e w P hrefs, depthOneFiles_nodup e w P hrefs,
    mem_depthOneFiles e w P hrefs⟩
  obtain ⟨schedule, result, h⟩ := DiscoverStructure_returns e w
  exact ⟨schedule, by rw [h, DiscoverStructure_depthOne e w P hrefs hset schedule result h]⟩

theorem depth_one_result_witness :
    (Except.ok ["https://x.test/files/a.txt", "https://x.test/files/b.txt"] :
        Except GoError (List String)) =
      .ok (depthOneFiles sampleEngine sampleWeb
        { Host := "x.test", text := "https://x.test/files/" } sampleHrefs) :=
  (depth_one_result sampleEngine sampleWeb { Host := "x.test", text := "https://x.test/files/" }
    sampleHrefs rfl rfl rfl rfl (fun u _ => by simp [sampleWeb])).1
    [0, 0, 0, 2, 1, 1, 0, 3, 3, 2, 2, 0, 0, 0, 0, 0, 0, 0, 0, 0, 0, 0, 0, 0, 0, 0, 0, 0, 0, 0] _ rfl

end WebSpider
